import Mathlib

/-!
Verification of the Centinel personal-finance core: a shallow embedding of
the SQL functions (`pot_deposit`, `pot_withdraw`, `delete_pot`,
`update_balance_on_transaction`) and of the client API logic
(`getTransactions`, `getRecurringBills`), together with proofs of the
specified invariants.

Numeric SQL/JS money values are modelled as `ℤ` (the code only ever adds,
subtracts and compares amounts, so nothing in the claims distinguishes the
SQL `numeric` type from integers); uuids as `Nat`; timestamps as
calendar dates (year, month, day), which is the granularity at which the
code compares them.
-/

namespace Centinel

/-- Calendar date: the date component of a `timestamptz` / JS `Date`. -/
structure Date where
  y : Nat
  m : Nat
  d : Nat
deriving DecidableEq, Repr

/-- Chronological (lexicographic) order on dates, non-strict. -/
def Date.le (a b : Date) : Prop :=
  a.y < b.y ∨ (a.y = b.y ∧ (a.m < b.m ∨ (a.m = b.m ∧ a.d ≤ b.d)))

/-- Chronological (lexicographic) order on dates, strict. -/
def Date.lt (a b : Date) : Prop :=
  a.y < b.y ∨ (a.y = b.y ∧ (a.m < b.m ∨ (a.m = b.m ∧ a.d < b.d)))

instance : DecidableRel Date.le := fun a b => by unfold Date.le; infer_instance

instance : DecidableRel Date.lt := fun a b => by unfold Date.lt; infer_instance

/-- Gregorian leap-year rule (as implemented by `Date`/`date_trunc` month ends). -/
def isLeapYear (y : Nat) : Bool :=
  (y % 4 == 0 && y % 100 != 0) || y % 400 == 0

/-- Number of days in a calendar month. -/
def daysInMonth (y m : Nat) : Nat :=
  if m = 2 then (if isLeapYear y then 29 else 28)
  else if m = 4 ∨ m = 6 ∨ m = 9 ∨ m = 11 then 30
  else 31

/-- `date_trunc('month', now())` / `new Date(Y, M, 1)`: first day of the month
containing `now`. -/
def monthStart (now : Date) : Date := ⟨now.y, now.m, 1⟩

/-- `month_start + interval '1 month' - interval '1 second'` /
`new Date(Y, M+1, 0, 23:59:59.999)`: last day of the month containing `now`. -/
def monthEnd (now : Date) : Date := ⟨now.y, now.m, daysInMonth now.y now.m⟩

/-- `date >= v_month_start AND date <= v_month_end`: the current-statement-period
test used by the balance trigger, the budget aggregator and the bill classifier. -/
def inPeriod (now d : Date) : Bool :=
  decide (Date.le (monthStart now) d) && decide (Date.le d (monthEnd now))

/-- A date whose day component actually exists in its month. -/
def dateValid (d : Date) : Prop := 1 ≤ d.d ∧ d.d ≤ daysInMonth d.y d.m

instance (d : Date) : Decidable (dateValid d) := by unfold dateValid; infer_instance

/-! ### Data model (schema `20240215000001_initial_schema.sql`) -/

/-- A row of `public.profiles`: the per-user account holding the cash balance. -/
structure Profile where
  id : Nat
  balance : ℤ
deriving DecidableEq, Repr

/-- A row of `public.pots`. -/
structure Pot where
  id : Nat
  user_id : Nat
  name : String
  target : ℤ
  total : ℤ
deriving DecidableEq, Repr

/-- A row of `public.transactions`. -/
structure Transaction where
  id : Nat
  user_id : Nat
  name : String
  category : String
  date : Date
  amount : ℤ
  recurring : Bool
deriving DecidableEq, Repr

/-- The durable store: the three tables the verified operations touch. -/
structure DB where
  profiles : List Profile
  pots : List Pot
  txs : List Transaction
deriving DecidableEq, Repr

/-- `SELECT * FROM pots WHERE id = pot_id AND user_id = v_user_id`. -/
def findPot (db : DB) (uid potId : Nat) : Option Pot :=
  db.pots.find? (fun p => p.id == potId && p.user_id == uid)

/-- `SELECT * FROM pots WHERE id = pot_id` (re-select after update). -/
def findPotById (db : DB) (potId : Nat) : Option Pot :=
  db.pots.find? (fun p => p.id == potId)

/-- `SELECT * FROM profiles WHERE id = v_user_id`. -/
def findProfile (db : DB) (uid : Nat) : Option Profile :=
  db.profiles.find? (fun pr => pr.id == uid)

/-! ### Pot Transfer Engine (`20240215000002_db_functions.sql`) -/

/-- Failure taxonomy of the pot functions (the `error` strings they return). -/
inductive PotError where
  | unauthorized
  | invalidAmount
  | potNotFound
  | profileNotFound
  | insufficientBalance
  | insufficientPotBalance
deriving DecidableEq, Repr

/-- Result of a pot function: the jsonb payload it builds. -/
inductive PotResult where
  /-- `{'success': true, 'pot': ..., 'newBalance': ...}` (from the re-selects). -/
  | ok (pot : Option Pot) (newBalance : Option ℤ)
  /-- `{'success': true}` returned by `delete_pot`. -/
  | okDeleted
  /-- `{'error': ...}`. -/
  | err (e : PotError)
deriving DecidableEq, Repr

/-- Whether the result is an error payload. -/
def PotResult.isErr : PotResult → Bool
  | .err _ => true
  | _ => false

/-- Error projection of a result. -/
def PotResult.errOf : PotResult → Option PotError
  | .err e => some e
  | _ => none

/-- `public.pot_deposit(pot_id, amount)` run by caller `uid?` (`auth.uid()`). -/
def pot_deposit (uid? : Option Nat) (potId : Nat) (amount : ℤ) (db : DB) :
    PotResult × DB :=
  match uid? with
  | none => (.err .unauthorized, db)
  | some uid =>
    if amount ≤ 0 then (.err .invalidAmount, db)
    else
      match findPot db uid potId with
      | none => (.err .potNotFound, db)
      | some _ =>
        match findProfile db uid with
        | none => (.err .profileNotFound, db)
        | some pr =>
          if pr.balance < amount then (.err .insufficientBalance, db)
          else
            let profiles' := db.profiles.map fun q =>
              if q.id == uid then { q with balance := q.balance - amount } else q
            let pots' := db.pots.map fun p =>
              if p.id == potId then { p with total := p.total + amount } else p
            let db' : DB := { db with profiles := profiles', pots := pots' }
            (.ok (findPotById db' potId) ((findProfile db' uid).map (·.balance)), db')

/-- `public.pot_withdraw(pot_id, amount)` run by caller `uid?`. -/
def pot_withdraw (uid? : Option Nat) (potId : Nat) (amount : ℤ) (db : DB) :
    PotResult × DB :=
  match uid? with
  | none => (.err .unauthorized, db)
  | some uid =>
    if amount ≤ 0 then (.err .invalidAmount, db)
    else
      match findPot db uid potId with
      | none => (.err .potNotFound, db)
      | some pot =>
        if pot.total < amount then (.err .insufficientPotBalance, db)
        else
          let pots' := db.pots.map fun p =>
            if p.id == potId then { p with total := p.total - amount } else p
          let profiles' := db.profiles.map fun q =>
            if q.id == uid then { q with balance := q.balance + amount } else q
          let db' : DB := { db with profiles := profiles', pots := pots' }
          (.ok (findPotById db' potId) ((findProfile db' uid).map (·.balance)), db')

/-- `public.delete_pot(pot_id)` run by caller `uid?`. -/
def delete_pot (uid? : Option Nat) (potId : Nat) (db : DB) : PotResult × DB :=
  match uid? with
  | none => (.err .unauthorized, db)
  | some uid =>
    match findPot db uid potId with
    | none => (.err .potNotFound, db)
    | some pot =>
      let profiles' :=
        if 0 < pot.total then
          db.profiles.map fun q =>
            if q.id == uid then { q with balance := q.balance + pot.total } else q
        else db.profiles
      let pots' := db.pots.filter fun p => !(p.id == potId)
      (.okDeleted, { db with profiles := profiles', pots := pots' })

/-- One invocation of the Pot Transfer Engine (which function, by which caller,
with which arguments). -/
inductive PotOp where
  | dep (uid? : Option Nat) (potId : Nat) (amount : ℤ)
  | wd (uid? : Option Nat) (potId : Nat) (amount : ℤ)
  | del (uid? : Option Nat) (potId : Nat)
deriving DecidableEq, Repr

/-- Dispatch a pot operation. -/
def runPotOp : PotOp → DB → PotResult × DB
  | .dep uid? potId amount, db => pot_deposit uid? potId amount db
  | .wd uid? potId amount, db => pot_withdraw uid? potId amount db
  | .del uid? potId, db => delete_pot uid? potId db

/-! ### Balance Accrual Engine: trigger `update_balance_on_transaction`
fired by the transaction CRUD of the client API (`createTransaction`,
`updateTransaction`, `deleteTransaction`). -/

/-- `UPDATE profiles SET balance = balance + a WHERE id = uid`. -/
def bumpBalance (uid : Nat) (a : ℤ) (ps : List Profile) : List Profile :=
  ps.map fun q => if q.id == uid then { q with balance := q.balance + a } else q

/-- The partial record accepted by `updateTransaction`: only present fields
are changed (`user_id` and `id` are never among them). -/
structure TransactionPatch where
  name : Option String := none
  category : Option String := none
  date : Option Date := none
  amount : Option ℤ := none
  recurring : Option Bool := none
deriving DecidableEq, Repr

/-- Build the NEW row an update produces from the OLD row. -/
def applyPatch (p : TransactionPatch) (t : Transaction) : Transaction :=
  { t with
    name := p.name.getD t.name
    category := p.category.getD t.category
    date := p.date.getD t.date
    amount := p.amount.getD t.amount
    recurring := p.recurring.getD t.recurring }

/-- The `TG_OP = 'UPDATE'` branch of `update_balance_on_transaction`, for one
row: reverse the old amount if it was in the current month, apply the new
amount if it is. -/
def updTrigger (now : Date) (oldTx newTx : Transaction) (ps : List Profile) :
    List Profile :=
  if inPeriod now oldTx.date || inPeriod now newTx.date then
    let ps1 :=
      if inPeriod now oldTx.date then bumpBalance oldTx.user_id (-oldTx.amount) ps
      else ps
    if inPeriod now newTx.date then bumpBalance newTx.user_id newTx.amount ps1
    else ps1
  else ps

/-- `createTransaction` + the `INSERT` trigger branch.  The primary key makes a
conflicting insert fail, leaving the store unchanged. -/
def tx_insert (now : Date) (tx : Transaction) (db : DB) : DB :=
  if db.txs.any (fun t => t.id == tx.id) then db
  else
    { db with
      txs := db.txs ++ [tx]
      profiles :=
        if inPeriod now tx.date then bumpBalance tx.user_id tx.amount db.profiles
        else db.profiles }

/-- `updateTransaction id patch` + the `UPDATE` trigger branch, fired for each
affected row (`UPDATE transactions ... WHERE id = txId`). -/
def tx_update (now : Date) (txId : Nat) (p : TransactionPatch) (db : DB) : DB :=
  { db with
    txs := db.txs.map fun t => if t.id == txId then applyPatch p t else t
    profiles := db.txs.foldl
      (fun ps t => if t.id == txId then updTrigger now t (applyPatch p t) ps else ps)
      db.profiles }

/-- `deleteTransaction id` + the `DELETE` trigger branch, fired for each
deleted row. -/
def tx_delete (now : Date) (txId : Nat) (db : DB) : DB :=
  { db with
    txs := db.txs.filter fun t => !(t.id == txId)
    profiles := db.txs.foldl
      (fun ps t =>
        if t.id == txId && inPeriod now t.date then
          bumpBalance t.user_id (-t.amount) ps
        else ps)
      db.profiles }

/-- One transaction CRUD mutation. -/
inductive TxOp where
  | ins (tx : Transaction)
  | upd (txId : Nat) (p : TransactionPatch)
  | del (txId : Nat)
deriving DecidableEq, Repr

/-- Apply one transaction mutation (with its trigger) to the store. -/
def applyTxOp (now : Date) : TxOp → DB → DB
  | .ins tx, db => tx_insert now tx db
  | .upd txId p, db => tx_update now txId p db
  | .del txId, db => tx_delete now txId db

/-- Replay a sequence of transaction mutations. -/
def applyTxOps (now : Date) (ops : List TxOp) (db : DB) : DB :=
  ops.foldl (fun db op => applyTxOp now op db) db

/-- `createPot` (client API): insert a pot row with `total = 0`; a conflicting
primary key makes the insert fail. -/
def pot_create (uid potId : Nat) (name : String) (target : ℤ) (db : DB) : DB :=
  if db.pots.any (fun p => p.id == potId) then db
  else
    { db with
      pots := db.pots ++ [{ id := potId, user_id := uid, name := name,
                            target := target, total := 0 }] }

/-- One operation of the whole system: transaction CRUD, pot creation, or a
Pot Transfer Engine call. -/
inductive SysOp where
  | tx (op : TxOp)
  | mkPot (uid potId : Nat) (name : String) (target : ℤ)
  | pot (op : PotOp)
deriving DecidableEq, Repr

/-- Apply one system operation to the store. -/
def applySysOp (now : Date) : SysOp → DB → DB
  | .tx op, db => applyTxOp now op db
  | .mkPot uid potId name target, db => pot_create uid potId name target db
  | .pot op, db => (runPotOp op db).2

/-- Replay a sequence of system operations. -/
def applySysOps (now : Date) (ops : List SysOp) (db : DB) : DB :=
  ops.foldl (fun db op => applySysOp now op db) db

/-! ### Derived sums and invariants -/

/-- Direct recomputation: the sum of the amounts of `uid`'s transactions whose
date falls in the current statement period. -/
def inPeriodSum (now : Date) (uid : Nat) (txs : List Transaction) : ℤ :=
  ((txs.filter (fun t => t.user_id == uid && inPeriod now t.date)).map (·.amount)).sum

/-- The Balance Accrual invariant: every stored balance equals the direct
in-period recomputation for its account. -/
def balanceInv (now : Date) (db : DB) : Prop :=
  ∀ pr ∈ db.profiles, pr.balance = inPeriodSum now pr.id db.txs

instance (now : Date) (db : DB) : Decidable (balanceInv now db) := by
  unfold balanceInv; infer_instance

/-- The sum of the totals of `uid`'s pots. -/
def potTotalSum (uid : Nat) (pots : List Pot) : ℤ :=
  ((pots.filter (fun p => p.user_id == uid)).map (·.total)).sum

/-- Conservation invariant: every stored balance plus the account's pot totals
equals the direct in-period recomputation. -/
def conserveInv (now : Date) (db : DB) : Prop :=
  ∀ pr ∈ db.profiles,
    pr.balance + potTotalSum pr.id db.pots = inPeriodSum now pr.id db.txs

instance (now : Date) (db : DB) : Decidable (conserveInv now db) := by
  unfold conserveInv; infer_instance

/-- Pot primary keys are unique. -/
def potIdsNodup (db : DB) : Prop := (db.pots.map (·.id)).Nodup

instance (db : DB) : Decidable (potIdsNodup db) := by
  unfold potIdsNodup; infer_instance

/-- The schema's `CHECK (total >= 0)` on pots. -/
def potsNonneg (db : DB) : Prop := ∀ p ∈ db.pots, 0 ≤ p.total

instance (db : DB) : Decidable (potsNonneg db) := by
  unfold potsNonneg; infer_instance

/-! ### Client API (`src/lib/api.ts`): transaction listing -/

/-- The six sort options of `SORT_MAP` / the bill comparator. -/
inductive SortOption where
  | latest
  | oldest
  | aToZ
  | zToA
  | highest
  | lowest
deriving DecidableEq, Repr

/-- Case-sensitive substring test on character lists (`String.includes` /
the `%s%` pattern of `ilike` after lowering both sides). -/
def listContains : List Char → List Char → Bool
  | [], needle => needle.isEmpty
  | c :: t, needle => needle.isPrefixOf (c :: t) || listContains t needle

/-- Case-insensitive substring search (`ilike '%s%'`,
`name.toLowerCase().includes(search.toLowerCase())`). -/
def nameMatches (name search : String) : Bool :=
  listContains (name.data.map Char.toLower) (search.data.map Char.toLower)

/-- `SORT_MAP`: the row order requested from the store for each option.
`Highest`/`Lowest` order by the *signed* `amount` column. -/
def txLe (o : SortOption) (a b : Transaction) : Prop :=
  match o with
  | .latest => Date.le b.date a.date
  | .oldest => Date.le a.date b.date
  | .aToZ => a.name ≤ b.name
  | .zToA => b.name ≤ a.name
  | .highest => b.amount ≤ a.amount
  | .lowest => a.amount ≤ b.amount

instance (o : SortOption) : DecidableRel (txLe o) := fun a b => by
  unfold txLe; cases o <;> infer_instance

instance (o : SortOption) : IsTotal Transaction (txLe o) where
  total a b := by
    cases o <;> simp only [txLe]
    case latest => unfold Date.le; omega
    case oldest => unfold Date.le; omega
    all_goals first
      | exact le_total a.name b.name
      | exact (le_total a.name b.name).symm
      | exact le_total a.amount b.amount
      | exact (le_total a.amount b.amount).symm

instance (o : SortOption) : IsTrans Transaction (txLe o) where
  trans a b c hab hbc := by
    cases o <;> simp only [txLe] at hab hbc ⊢
    case latest => unfold Date.le at *; omega
    case oldest => unfold Date.le at *; omega
    all_goals first
      | exact le_trans hab hbc
      | exact le_trans hbc hab

/-- Parameters of `getTransactions` (after its `??` defaulting). -/
structure TxParams where
  page : Nat := 1
  limit : Nat := 10
  search : Option String := none
  sort : SortOption := .latest
  category : Option String := none
deriving DecidableEq, Repr

/-- Shape of the `getTransactions` response `data`. -/
structure TxPage where
  transactions : List Transaction
  total : Nat
  page : Nat
  pages : Nat
  limit : Nat
deriving DecidableEq, Repr

/-- The `ilike` search filter (a falsy — absent or empty — search is skipped). -/
def applySearch (search : Option String) (txs : List Transaction) :
    List Transaction :=
  match search with
  | none => txs
  | some s => if s = "" then txs else txs.filter (fun t => nameMatches t.name s)

/-- The category equality filter (skipped when falsy or `'All Transactions'`). -/
def applyCategory (category : Option String) (txs : List Transaction) :
    List Transaction :=
  match category with
  | none => txs
  | some c =>
    if c = "" ∨ c = "All Transactions" then txs
    else txs.filter (fun t => t.category == c)

/-- `getTransactions`: filter (search, category), order by the `SORT_MAP`
column, and return the `range(from, to)` page with an exact total count. -/
def getTransactions (p : TxParams) (txs : List Transaction) : TxPage :=
  let filtered := applyCategory p.category (applySearch p.search txs)
  let sorted := filtered.insertionSort (txLe p.sort)
  let total := filtered.length
  let pages := (total + p.limit - 1) / p.limit
  { transactions := (sorted.drop ((p.page - 1) * p.limit)).take p.limit
    total := total
    page := p.page
    pages := pages
    limit := p.limit }

/-! ### Recurring Bill Classifier (`getRecurringBills`) -/

/-- Bill status. -/
inductive BillStatus where
  | paid
  | upcoming
  | dueSoon
deriving DecidableEq, Repr

/-- A classified recurring bill: the representative transaction enriched with
`status` and `dueDay`. -/
structure RecurringBill where
  tx : Transaction
  status : BillStatus
  dueDay : Nat
deriving DecidableEq, Repr

/-- Summary bucket: `{count, amount}`. -/
structure StatusSummary where
  count : Nat
  amount : ℤ
deriving DecidableEq, Repr

/-- The recurring-bills summary rollup. -/
structure RecurringSummary where
  total : Nat
  totalAmount : ℤ
  paid : StatusSummary
  upcoming : StatusSummary
  dueSoon : StatusSummary
deriving DecidableEq, Repr

/-- Parameters of `getRecurringBills`. -/
structure BillParams where
  search : Option String := none
  sort : Option SortOption := none
deriving DecidableEq, Repr

/-- The filter `tx.recurring && tx.amount < 0` selecting recurring expenses. -/
def recurringExpense (t : Transaction) : Bool :=
  t.recurring && decide (t.amount < 0)

/-- One step of building `billMap`: keep the stored transaction for the name
unless the incoming one is strictly later (`new Date(tx.date) > ...`); a JS
`Map` keeps the key's original insertion position on overwrite. -/
def billMapInsert (m : List (String × Transaction)) (tx : Transaction) :
    List (String × Transaction) :=
  match m with
  | [] => [(tx.name, tx)]
  | (n, t) :: rest =>
    if n = tx.name then
      if Date.lt t.date tx.date then (n, tx) :: rest else (n, t) :: rest
    else (n, t) :: billMapInsert rest tx

/-- `billMap`: fold the recurring transactions into a name-keyed map whose
value is the latest-dated transaction for that name. -/
def buildBillMap (txs : List Transaction) : List (String × Transaction) :=
  txs.foldl billMapInsert []

/-- Classify one representative transaction against `now`. -/
def classifyBill (now : Date) (tx : Transaction) : RecurringBill :=
  let dueDay := tx.date.d
  let isPaidThisMonth := inPeriod now tx.date
  let status : BillStatus :=
    if isPaidThisMonth then .paid
    else if now.d < dueDay ∧ dueDay ≤ now.d + 5 then .dueSoon
    else .upcoming
  { tx := tx, status := status, dueDay := dueDay }

/-- The bill comparator of `getRecurringBills` (note `Latest`/`Oldest` order by
`dueDay`, `Highest`/`Lowest` by `abs(amount)`). -/
def billLe (o : SortOption) (a b : RecurringBill) : Prop :=
  match o with
  | .latest => a.dueDay ≤ b.dueDay
  | .oldest => b.dueDay ≤ a.dueDay
  | .aToZ => a.tx.name ≤ b.tx.name
  | .zToA => b.tx.name ≤ a.tx.name
  | .highest => |b.tx.amount| ≤ |a.tx.amount|
  | .lowest => |a.tx.amount| ≤ |b.tx.amount|

instance (o : SortOption) : DecidableRel (billLe o) := fun a b => by
  unfold billLe; cases o <;> infer_instance

instance (o : SortOption) : IsTotal RecurringBill (billLe o) where
  total a b := by
    cases o <;> simp only [billLe]
    all_goals first
      | exact le_total a.dueDay b.dueDay
      | exact (le_total a.dueDay b.dueDay).symm
      | exact le_total a.tx.name b.tx.name
      | exact (le_total a.tx.name b.tx.name).symm
      | exact le_total |a.tx.amount| |b.tx.amount|
      | exact (le_total |a.tx.amount| |b.tx.amount|).symm

instance (o : SortOption) : IsTrans RecurringBill (billLe o) where
  trans a b c hab hbc := by
    cases o <;> simp only [billLe] at hab hbc ⊢
    all_goals first
      | exact le_trans hab hbc
      | exact le_trans hbc hab

/-- Sum `Math.abs(amount)` over bills (`reduce((sum, b) => sum + abs, 0)`). -/
def absAmountSum (bs : List RecurringBill) : ℤ :=
  bs.foldl (fun s b => s + |b.tx.amount|) 0

/-- Everything `getRecurringBills` does after fetching its transaction page:
group, classify, search-filter, sort, and summarize (the summary is computed
from the unfiltered classified set `bills`). -/
def billsPipeline (now : Date) (params : BillParams) (page : List Transaction) :
    List RecurringBill × RecurringSummary :=
  let recurringTransactions := page.filter recurringExpense
  let uniqueBills := (buildBillMap recurringTransactions).map (·.2)
  let bills := uniqueBills.map (classifyBill now)
  let filteredBills :=
    match params.search with
    | none => bills
    | some s =>
      if s = "" then bills
      else bills.filter (fun b => nameMatches b.tx.name s)
  let sortedBills := filteredBills.insertionSort (billLe (params.sort.getD .latest))
  let paidBills := bills.filter (fun b => b.status == .paid)
  let upcomingBills :=
    bills.filter (fun b => b.status == .upcoming || b.status == .dueSoon)
  let dueSoonBills := bills.filter (fun b => b.status == .dueSoon)
  let summary : RecurringSummary :=
    { total := upcomingBills.length
      totalAmount := absAmountSum upcomingBills
      paid := { count := paidBills.length, amount := absAmountSum paidBills }
      upcoming := { count := upcomingBills.length
                    amount := absAmountSum upcomingBills }
      dueSoon := { count := dueSoonBills.length
                   amount := absAmountSum dueSoonBills } }
  (sortedBills, summary)

/-- The transaction page `getRecurringBills` works from:
`getTransactions({ limit: 500 })` (page 1, date-descending, no filters). -/
def page500 (txs : List Transaction) : List Transaction :=
  (getTransactions { limit := 500 } txs).transactions

/-- `getRecurringBills`: classify the recurring bills found in the single
500-row first page of the transaction listing. -/
def getRecurringBills (now : Date) (params : BillParams)
    (txs : List Transaction) : List RecurringBill × RecurringSummary :=
  billsPipeline now params (page500 txs)

/-- Normal form of profile-table mutations: add `f id` to every row's
balance (all balance writes of the trigger and the pot engine are of this
shape). -/
def profilesAdd (f : Nat → ℤ) (ps : List Profile) : List Profile :=
  ps.map fun pr => { pr with balance := pr.balance + f pr.id }

/-! ### Observations used by the claim statements -/

/-- The funds visible to a pot transfer: the pot's total plus the owning
account's balance (0 for an absent row). -/
def ownerFunds (db : DB) (uid potId : Nat) : ℤ :=
  ((findPotById db potId).map (·.total)).getD 0 +
    ((findProfile db uid).map (·.balance)).getD 0

/-- A user's total funds: account balance plus all pot totals. -/
def userFunds (db : DB) (uid : Nat) : ℤ :=
  ((findProfile db uid).map (·.balance)).getD 0 + potTotalSum uid db.pots

/-- Frame condition of a pot transfer: rows other than pot `potId` and
profile `uid` are untouched, and the transaction table is untouched. -/
def framePreserved (db db' : DB) (uid potId : Nat) : Prop :=
  (∀ q ∈ db.pots, q.id ≠ potId → q ∈ db'.pots) ∧
  (∀ q ∈ db'.pots, q.id ≠ potId → q ∈ db.pots) ∧
  (∀ q ∈ db.profiles, q.id ≠ uid → q ∈ db'.profiles) ∧
  (∀ q ∈ db'.profiles, q.id ≠ uid → q ∈ db.profiles) ∧
  db'.pots.length = db.pots.length ∧
  db'.profiles.length = db.profiles.length ∧
  db'.txs = db.txs

/-! ### Basic lemmas: date order, period test, list helpers -/

theorem Date.le_refl (a : Date) : Date.le a a := by
  unfold Date.le; omega

theorem Date.le_trans {a b c : Date} (h1 : Date.le a b) (h2 : Date.le b c) :
    Date.le a c := by
  unfold Date.le at *; omega

theorem Date.le_total (a b : Date) : Date.le a b ∨ Date.le b a := by
  unfold Date.le; omega

theorem Date.le_of_lt {a b : Date} (h : Date.lt a b) : Date.le a b := by
  unfold Date.lt at h; unfold Date.le; omega

theorem Date.le_of_not_lt {a b : Date} (h : ¬ Date.lt a b) : Date.le b a := by
  unfold Date.lt at h; unfold Date.le; omega

theorem inPeriod_iff_sameMonth {now d : Date} (hv : dateValid d) :
    inPeriod now d = true ↔ (d.y = now.y ∧ d.m = now.m) := by
  obtain ⟨hv1, hv2⟩ := hv
  unfold inPeriod monthStart monthEnd
  simp only [Bool.and_eq_true, decide_eq_true_eq]
  unfold Date.le
  constructor
  · rintro ⟨h1, h2⟩
    simp only at h1 h2
    omega
  · rintro ⟨hy, hm⟩
    rw [hy, hm] at hv2
    simp only
    omega

theorem find?_eq_some_of_unique {α : Type} (p : α → Bool) {l : List α} {x : α}
    (hx : x ∈ l) (hpx : p x = true)
    (huniq : ∀ y ∈ l, p y = true → y = x) : l.find? p = some x := by
  induction l with
  | nil => cases hx
  | cons a t ih =>
    by_cases hpa : p a = true
    · have hax : a = x := huniq a (List.mem_cons_self a t) hpa
      rw [List.find?_cons_of_pos _ hpa, hax]
    · have hxt : x ∈ t := by
        rcases List.mem_cons.mp hx with h | h
        · exact absurd (h ▸ hpx) hpa
        · exact h
      rw [List.find?_cons_of_neg _ hpa]
      exact ih hxt (fun y hy hpy => huniq y (List.mem_cons_of_mem _ hy) hpy)

theorem pot_deposit_state_or (uid? : Option Nat) (potId : Nat) (amount : ℤ)
    (db : DB) :
    (pot_deposit uid? potId amount db).2 = db ∨
    (pot_deposit uid? potId amount db).1.isErr = false := by
  cases uid? with
  | none => exact Or.inl rfl
  | some uid =>
    by_cases h1 : amount ≤ 0
    · exact Or.inl (by simp [pot_deposit, h1])
    · cases hfp : findPot db uid potId with
      | none => exact Or.inl (by simp [pot_deposit, h1, hfp])
      | some pot =>
        cases hpr : findProfile db uid with
        | none => exact Or.inl (by simp [pot_deposit, h1, hfp, hpr])
        | some pr =>
          by_cases h2 : pr.balance < amount
          · exact Or.inl (by simp [pot_deposit, h1, hfp, hpr, h2])
          · exact Or.inr (by simp [pot_deposit, h1, hfp, hpr, h2, PotResult.isErr])

theorem pot_withdraw_state_or (uid? : Option Nat) (potId : Nat) (amount : ℤ)
    (db : DB) :
    (pot_withdraw uid? potId amount db).2 = db ∨
    (pot_withdraw uid? potId amount db).1.isErr = false := by
  cases uid? with
  | none => exact Or.inl rfl
  | some uid =>
    by_cases h1 : amount ≤ 0
    · exact Or.inl (by simp [pot_withdraw, h1])
    · cases hfp : findPot db uid potId with
      | none => exact Or.inl (by simp [pot_withdraw, h1, hfp])
      | some pot =>
        by_cases h2 : pot.total < amount
        · exact Or.inl (by simp [pot_withdraw, h1, hfp, h2])
        · exact Or.inr (by simp [pot_withdraw, h1, hfp, h2, PotResult.isErr])

theorem delete_pot_state_or (uid? : Option Nat) (potId : Nat) (db : DB) :
    (delete_pot uid? potId db).2 = db ∨
    (delete_pot uid? potId db).1.isErr = false := by
  cases uid? with
  | none => exact Or.inl rfl
  | some uid =>
    cases hfp : findPot db uid potId with
    | none => exact Or.inl (by simp [delete_pot, hfp])
    | some pot => exact Or.inr (by simp [delete_pot, hfp, PotResult.isErr])

/-- C3: whenever a Pot Transfer Engine call (`pot_deposit`, `pot_withdraw`
or `delete_pot`) returns an error payload, the store is completely
unchanged — every failure check precedes every mutation. -/
theorem pot_op_failure_leaves_state_unchanged (op : PotOp) (db : DB)
    (h : (runPotOp op db).1.isErr = true) : (runPotOp op db).2 = db := by
  cases op with
  | dep uid? potId amount =>
    simp only [runPotOp] at h ⊢
    rcases pot_deposit_state_or uid? potId amount db with h2 | h2
    · exact h2
    · rw [h2] at h; cases h
  | wd uid? potId amount =>
    simp only [runPotOp] at h ⊢
    rcases pot_withdraw_state_or uid? potId amount db with h2 | h2
    · exact h2
    · rw [h2] at h; cases h
  | del uid? potId =>
    simp only [runPotOp] at h ⊢
    rcases delete_pot_state_or uid? potId db with h2 | h2
    · exact h2
    · rw [h2] at h; cases h

/-- Witness for C3: an unauthorized deposit fails and leaves the store as it
was. -/
theorem pot_op_failure_leaves_state_unchanged_witness :
    (runPotOp (.dep none 7 5) ⟨[⟨1, 100⟩], [⟨7, 1, "Vacation", 200, 30⟩], []⟩).2 =
      ⟨[⟨1, 100⟩], [⟨7, 1, "Vacation", 200, 30⟩], []⟩ :=
  pot_op_failure_leaves_state_unchanged (.dep none 7 5)
    ⟨[⟨1, 100⟩], [⟨7, 1, "Vacation", 200, 30⟩], []⟩ (by decide)

/-- C2: for an authenticated caller with an account row, the failure of a
deposit or withdrawal is exactly characterized: `InvalidAmount` iff
`amount ≤ 0`; else `NotFound` iff no pot of the caller matches; else
deposit fails `InsufficientBalance` iff `balance < amount` and withdrawal
fails `InsufficientPotBalance` iff `pot.total < amount`; otherwise the
operation succeeds. -/
theorem pot_transfer_error_taxonomy (uid potId : Nat) (amount : ℤ) (db : DB)
    (pr : Profile) (hpr : findProfile db uid = some pr) :
    ((pot_deposit (some uid) potId amount db).1.errOf =
      (if amount ≤ 0 then some .invalidAmount
       else
         match findPot db uid potId with
         | none => some .potNotFound
         | some _ =>
           if pr.balance < amount then some .insufficientBalance else none)) ∧
    ((∃ p b, (pot_deposit (some uid) potId amount db).1 = .ok p b) ↔
      ¬ amount ≤ 0 ∧ (findPot db uid potId).isSome = true ∧
        ¬ pr.balance < amount) ∧
    ((pot_withdraw (some uid) potId amount db).1.errOf =
      (if amount ≤ 0 then some .invalidAmount
       else
         match findPot db uid potId with
         | none => some .potNotFound
         | some pot =>
           if pot.total < amount then some .insufficientPotBalance else none)) ∧
    ((∃ p b, (pot_withdraw (some uid) potId amount db).1 = .ok p b) ↔
      ¬ amount ≤ 0 ∧ ∃ pot, findPot db uid potId = some pot ∧
        ¬ pot.total < amount) := by
  by_cases h1 : amount ≤ 0
  · cases hfp : findPot db uid potId with
    | none =>
      refine ⟨?_, ?_, ?_, ?_⟩ <;>
        simp [pot_deposit, pot_withdraw, PotResult.errOf, h1, hfp]
    | some pot =>
      refine ⟨?_, ?_, ?_, ?_⟩ <;>
        simp [pot_deposit, pot_withdraw, PotResult.errOf, h1, hfp]
  · cases hfp : findPot db uid potId with
    | none =>
      refine ⟨?_, ?_, ?_, ?_⟩ <;>
        simp [pot_deposit, pot_withdraw, PotResult.errOf, h1, hfp]
    | some pot =>
      refine ⟨?_, ?_, ?_, ?_⟩
      · by_cases h2 : pr.balance < amount <;>
          simp [pot_deposit, PotResult.errOf, h1, hfp, hpr, h2]
      · by_cases h2 : pr.balance < amount <;>
          simp [pot_deposit, h1, hfp, hpr, h2]
      · by_cases h3 : pot.total < amount <;>
          simp [pot_withdraw, PotResult.errOf, h1, hfp, h3]
      · by_cases h3 : pot.total < amount <;>
          simp [pot_withdraw, h1, hfp, h3] <;> omega

/-- Witness for C2 at a concrete store. -/
theorem pot_transfer_error_taxonomy_witness :
    ((pot_deposit (some 1) 7 50
        ⟨[⟨1, 100⟩], [⟨7, 1, "Vacation", 200, 30⟩], []⟩).1.errOf =
      (if (50:ℤ) ≤ 0 then some .invalidAmount
       else
         match findPot ⟨[⟨1, 100⟩], [⟨7, 1, "Vacation", 200, 30⟩], []⟩ 1 7 with
         | none => some .potNotFound
         | some _ =>
           if (100:ℤ) < 50 then some .insufficientBalance else none)) ∧
    ((∃ p b, (pot_deposit (some 1) 7 50
        ⟨[⟨1, 100⟩], [⟨7, 1, "Vacation", 200, 30⟩], []⟩).1 = .ok p b) ↔
      ¬ (50:ℤ) ≤ 0 ∧
        (findPot ⟨[⟨1, 100⟩], [⟨7, 1, "Vacation", 200, 30⟩], []⟩ 1 7).isSome = true ∧
        ¬ (100:ℤ) < 50) ∧
    ((pot_withdraw (some 1) 7 50
        ⟨[⟨1, 100⟩], [⟨7, 1, "Vacation", 200, 30⟩], []⟩).1.errOf =
      (if (50:ℤ) ≤ 0 then some .invalidAmount
       else
         match findPot ⟨[⟨1, 100⟩], [⟨7, 1, "Vacation", 200, 30⟩], []⟩ 1 7 with
         | none => some .potNotFound
         | some pot =>
           if pot.total < 50 then some .insufficientPotBalance else none)) ∧
    ((∃ p b, (pot_withdraw (some 1) 7 50
        ⟨[⟨1, 100⟩], [⟨7, 1, "Vacation", 200, 30⟩], []⟩).1 = .ok p b) ↔
      ¬ (50:ℤ) ≤ 0 ∧
        ∃ pot, findPot ⟨[⟨1, 100⟩], [⟨7, 1, "Vacation", 200, 30⟩], []⟩ 1 7 =
          some pot ∧ ¬ pot.total < 50) :=
  pot_transfer_error_taxonomy 1 7 50
    ⟨[⟨1, 100⟩], [⟨7, 1, "Vacation", 200, 30⟩], []⟩ ⟨1, 100⟩ rfl

theorem find?_map_preserve {α : Type} (l : List α) (pred : α → Bool)
    (g : α → α) (hg : ∀ p, pred (g p) = pred p) :
    (l.map g).find? pred = (l.find? pred).map g := by
  rw [List.find?_map, show (pred ∘ g) = pred from funext hg]

theorem frame_map_touch {α : Type} (l : List α) (key : α → Nat) (k : Nat)
    (g : α → α) (hg : ∀ p, key (g p) = key p) :
    (∀ q ∈ l, key q ≠ k → q ∈ l.map (fun p => if key p == k then g p else p)) ∧
    (∀ q ∈ l.map (fun p => if key p == k then g p else p), key q ≠ k → q ∈ l) := by
  constructor
  · intro q hq hne
    refine List.mem_map.mpr ⟨q, hq, ?_⟩
    simp [beq_eq_false_iff_ne.mpr hne]
  · intro q hq hne
    rcases List.mem_map.mp hq with ⟨p, hp, hpq⟩
    by_cases hk : key p = k
    · exfalso
      apply hne
      rw [← hpq]
      simp [beq_iff_eq.mpr hk, hg, hk]
    · rw [← hpq]
      simp [beq_eq_false_iff_ne.mpr hk]
      exact hp

theorem findPotById_eq_of_nodup {db : DB} (hnd : potIdsNodup db)
    {uid potId : Nat} {pot : Pot} (hpot : findPot db uid potId = some pot) :
    findPotById db potId = some pot := by
  have hmem := List.mem_of_find?_eq_some hpot
  have hpred := List.find?_some hpot
  simp only [Bool.and_eq_true, beq_iff_eq] at hpred
  apply find?_eq_some_of_unique _ hmem
  · simp [hpred.1]
  · intro y hy hpy
    simp only [beq_iff_eq] at hpy
    exact List.inj_on_of_nodup_map hnd hy hmem (by rw [hpy, hpred.1])

/-- C1: a successful deposit moves exactly `amount` from the owning account's
balance to the pot's total, a successful withdrawal does the reverse, the sum
`pot.total + account.balance` is unchanged, and no other pot, profile or
transaction row changes. -/
theorem pot_transfer_conservation (uid potId : Nat) (amount : ℤ) (db : DB)
    (pot : Pot) (pr : Profile)
    (hnd : potIdsNodup db)
    (hpot : findPot db uid potId = some pot)
    (hpr : findProfile db uid = some pr)
    (hpos : 0 < amount) :
    (¬ pr.balance < amount →
      findPotById (pot_deposit (some uid) potId amount db).2 potId =
          some { pot with total := pot.total + amount } ∧
        findProfile (pot_deposit (some uid) potId amount db).2 uid =
          some { pr with balance := pr.balance - amount } ∧
        ownerFunds (pot_deposit (some uid) potId amount db).2 uid potId =
          ownerFunds db uid potId ∧
        framePreserved db (pot_deposit (some uid) potId amount db).2 uid potId) ∧
    (¬ pot.total < amount →
      findPotById (pot_withdraw (some uid) potId amount db).2 potId =
          some { pot with total := pot.total - amount } ∧
        findProfile (pot_withdraw (some uid) potId amount db).2 uid =
          some { pr with balance := pr.balance + amount } ∧
        ownerFunds (pot_withdraw (some uid) potId amount db).2 uid potId =
          ownerFunds db uid potId ∧
        framePreserved db (pot_withdraw (some uid) potId amount db).2 uid potId) := by
  have hneg : ¬ amount ≤ 0 := by omega
  have hpotid : (pot.id == potId) = true := by
    have := List.find?_some hpot
    simp only [Bool.and_eq_true] at this
    exact this.1
  have hpr0 : db.profiles.find? (fun q => q.id == uid) = some pr := hpr
  have hprid : (pr.id == uid) = true := by
    simpa using List.find?_some hpr0
  have hfindById : findPotById db potId = some pot := findPotById_eq_of_nodup hnd hpot
  constructor
  · intro hd
    have hdb' : (pot_deposit (some uid) potId amount db).2 =
        { db with
          profiles := db.profiles.map fun q =>
            if q.id == uid then { q with balance := q.balance - amount } else q
          pots := db.pots.map fun p =>
            if p.id == potId then { p with total := p.total + amount } else p } := by
      simp [pot_deposit, hneg, hpot, hpr, hd]
    have hgPot : ∀ p : Pot,
        ((if p.id == potId then { p with total := p.total + amount } else p).id
          == potId) = (p.id == potId) := by
      intro p; by_cases h : (p.id == potId) = true <;> simp [h]
    have hgPr : ∀ q : Profile,
        ((if q.id == uid then { q with balance := q.balance - amount } else q).id
          == uid) = (q.id == uid) := by
      intro q; by_cases h : (q.id == uid) = true <;> simp [h]
    have hfp' : (db.pots.map fun p =>
          if p.id == potId then { p with total := p.total + amount } else p).find?
            (fun p => p.id == potId) =
        some { pot with total := pot.total + amount } := by
      rw [find?_map_preserve _ _ _ hgPot]
      rw [show db.pots.find? (fun p => p.id == potId) = some pot from hfindById]
      simp [beq_iff_eq.mp hpotid]
    have hpr' : (db.profiles.map fun q =>
          if q.id == uid then { q with balance := q.balance - amount } else q).find?
            (fun q => q.id == uid) =
        some { pr with balance := pr.balance - amount } := by
      rw [find?_map_preserve _ _ _ hgPr]
      rw [show db.profiles.find? (fun q => q.id == uid) = some pr from hpr]
      simp [beq_iff_eq.mp hprid]
    have c1 : findPotById (pot_deposit (some uid) potId amount db).2 potId =
        some { pot with total := pot.total + amount } := by
      rw [hdb']; exact hfp'
    have c2 : findProfile (pot_deposit (some uid) potId amount db).2 uid =
        some { pr with balance := pr.balance - amount } := by
      rw [hdb']; exact hpr'
    refine ⟨c1, c2, ?_, ?_⟩
    · unfold ownerFunds
      rw [c1, c2, hfindById, hpr]
      simp only [Option.map_some', Option.getD_some]
      omega
    · rw [hdb']
      have hframeP := frame_map_touch db.pots (·.id) potId
        (fun p => { p with total := p.total + amount }) (fun _ => rfl)
      have hframeQ := frame_map_touch db.profiles (·.id) uid
        (fun q => { q with balance := q.balance - amount }) (fun _ => rfl)
      exact ⟨hframeP.1, hframeP.2, hframeQ.1, hframeQ.2,
        List.length_map _ _, List.length_map _ _, rfl⟩
  · intro hw
    have hdb' : (pot_withdraw (some uid) potId amount db).2 =
        { db with
          profiles := db.profiles.map fun q =>
            if q.id == uid then { q with balance := q.balance + amount } else q
          pots := db.pots.map fun p =>
            if p.id == potId then { p with total := p.total - amount } else p } := by
      simp [pot_withdraw, hneg, hpot, hw]
    have hgPot : ∀ p : Pot,
        ((if p.id == potId then { p with total := p.total - amount } else p).id
          == potId) = (p.id == potId) := by
      intro p; by_cases h : (p.id == potId) = true <;> simp [h]
    have hgPr : ∀ q : Profile,
        ((if q.id == uid then { q with balance := q.balance + amount } else q).id
          == uid) = (q.id == uid) := by
      intro q; by_cases h : (q.id == uid) = true <;> simp [h]
    have hfp' : (db.pots.map fun p =>
          if p.id == potId then { p with total := p.total - amount } else p).find?
            (fun p => p.id == potId) =
        some { pot with total := pot.total - amount } := by
      rw [find?_map_preserve _ _ _ hgPot]
      rw [show db.pots.find? (fun p => p.id == potId) = some pot from hfindById]
      simp [beq_iff_eq.mp hpotid]
    have hpr' : (db.profiles.map fun q =>
          if q.id == uid then { q with balance := q.balance + amount } else q).find?
            (fun q => q.id == uid) =
        some { pr with balance := pr.balance + amount } := by
      rw [find?_map_preserve _ _ _ hgPr]
      rw [show db.profiles.find? (fun q => q.id == uid) = some pr from hpr]
      simp [beq_iff_eq.mp hprid]
    have c1 : findPotById (pot_withdraw (some uid) potId amount db).2 potId =
        some { pot with total := pot.total - amount } := by
      rw [hdb']; exact hfp'
    have c2 : findProfile (pot_withdraw (some uid) potId amount db).2 uid =
        some { pr with balance := pr.balance + amount } := by
      rw [hdb']; exact hpr'
    refine ⟨c1, c2, ?_, ?_⟩
    · unfold ownerFunds
      rw [c1, c2, hfindById, hpr]
      simp only [Option.map_some', Option.getD_some]
      omega
    · rw [hdb']
      have hframeP := frame_map_touch db.pots (·.id) potId
        (fun p => { p with total := p.total - amount }) (fun _ => rfl)
      have hframeQ := frame_map_touch db.profiles (·.id) uid
        (fun q => { q with balance := q.balance + amount }) (fun _ => rfl)
      exact ⟨hframeP.1, hframeP.2, hframeQ.1, hframeQ.2,
        List.length_map _ _, List.length_map _ _, rfl⟩

/-- Witness for C1: depositing 50 of a 100 balance into a 30-total pot, and
withdrawing 20 from it, at a concrete store. -/
theorem pot_transfer_conservation_witness :
    (findPotById
        (pot_deposit (some 1) 7 50
          ⟨[⟨1, 100⟩], [⟨7, 1, "Vacation", 200, 30⟩], []⟩).2 7 =
        some ⟨7, 1, "Vacation", 200, 80⟩ ∧
      findProfile
        (pot_deposit (some 1) 7 50
          ⟨[⟨1, 100⟩], [⟨7, 1, "Vacation", 200, 30⟩], []⟩).2 1 =
        some ⟨1, 50⟩ ∧
      ownerFunds
        (pot_deposit (some 1) 7 50
          ⟨[⟨1, 100⟩], [⟨7, 1, "Vacation", 200, 30⟩], []⟩).2 1 7 =
        ownerFunds ⟨[⟨1, 100⟩], [⟨7, 1, "Vacation", 200, 30⟩], []⟩ 1 7 ∧
      framePreserved ⟨[⟨1, 100⟩], [⟨7, 1, "Vacation", 200, 30⟩], []⟩
        (pot_deposit (some 1) 7 50
          ⟨[⟨1, 100⟩], [⟨7, 1, "Vacation", 200, 30⟩], []⟩).2 1 7) ∧
    (findPotById
        (pot_withdraw (some 1) 7 20
          ⟨[⟨1, 100⟩], [⟨7, 1, "Vacation", 200, 30⟩], []⟩).2 7 =
        some ⟨7, 1, "Vacation", 200, 10⟩ ∧
      findProfile
        (pot_withdraw (some 1) 7 20
          ⟨[⟨1, 100⟩], [⟨7, 1, "Vacation", 200, 30⟩], []⟩).2 1 =
        some ⟨1, 120⟩ ∧
      ownerFunds
        (pot_withdraw (some 1) 7 20
          ⟨[⟨1, 100⟩], [⟨7, 1, "Vacation", 200, 30⟩], []⟩).2 1 7 =
        ownerFunds ⟨[⟨1, 100⟩], [⟨7, 1, "Vacation", 200, 30⟩], []⟩ 1 7 ∧
      framePreserved ⟨[⟨1, 100⟩], [⟨7, 1, "Vacation", 200, 30⟩], []⟩
        (pot_withdraw (some 1) 7 20
          ⟨[⟨1, 100⟩], [⟨7, 1, "Vacation", 200, 30⟩], []⟩).2 1 7) := by
  constructor
  · exact (pot_transfer_conservation 1 7 50
      ⟨[⟨1, 100⟩], [⟨7, 1, "Vacation", 200, 30⟩], []⟩
      ⟨7, 1, "Vacation", 200, 30⟩ ⟨1, 100⟩ (by decide) rfl rfl
      (by decide)).1 (by decide)
  · exact (pot_transfer_conservation 1 7 20
      ⟨[⟨1, 100⟩], [⟨7, 1, "Vacation", 200, 30⟩], []⟩
      ⟨7, 1, "Vacation", 200, 30⟩ ⟨1, 100⟩ (by decide) rfl rfl
      (by decide)).2 (by decide)

theorem potTotalSum_cons (uid : Nat) (a : Pot) (t : List Pot) :
    potTotalSum uid (a :: t) =
      (if a.user_id == uid then a.total else 0) + potTotalSum uid t := by
  unfold potTotalSum
  rw [List.filter_cons]
  by_cases h : (a.user_id == uid) = true <;> simp [h]

theorem potTotalSum_filter_ne {pots : List Pot} (hnd : (pots.map (·.id)).Nodup)
    {pot : Pot} (hmem : pot ∈ pots) (uid : Nat) :
    potTotalSum uid (pots.filter fun p => !(p.id == pot.id)) =
      potTotalSum uid pots - (if pot.user_id == uid then pot.total else 0) := by
  induction pots with
  | nil => cases hmem
  | cons a t ih =>
    simp only [List.map_cons, List.nodup_cons] at hnd
    obtain ⟨hna, hnt⟩ := hnd
    rcases List.mem_cons.mp hmem with rfl | hmt
    · have hfilter : t.filter (fun p => !(p.id == pot.id)) = t := by
        rw [List.filter_eq_self]
        intro b hb
        have hne : b.id ≠ pot.id := by
          intro h
          exact hna (h ▸ List.mem_map_of_mem (·.id) hb)
        simp [hne]
      rw [List.filter_cons]
      simp only [beq_self_eq_true, Bool.not_true, Bool.false_eq_true, if_false,
        hfilter]
      rw [potTotalSum_cons]
      by_cases h : (pot.user_id == uid) = true <;> simp [h]
    · have hne : a.id ≠ pot.id := by
        intro h
        exact hna (h ▸ List.mem_map_of_mem (·.id) hmt)
      rw [List.filter_cons]
      simp only [beq_eq_false_iff_ne.mpr hne, Bool.not_false, if_true]
      rw [potTotalSum_cons, potTotalSum_cons, ih hnt hmt]
      ring

/-- C6: deleting an owned pot succeeds, removes the pot row, credits its full
total (if positive) back to the account balance, leaves the balance unchanged
when the total is zero, and conserves the user's total funds. -/
theorem delete_pot_returns_funds (uid potId : Nat) (db : DB) (pot : Pot)
    (pr : Profile)
    (hnd : potIdsNodup db)
    (hpot : findPot db uid potId = some pot)
    (hpr : findProfile db uid = some pr)
    (htot : 0 ≤ pot.total) :
    (delete_pot (some uid) potId db).1 = .okDeleted ∧
    (0 < pot.total →
      findProfile (delete_pot (some uid) potId db).2 uid =
        some { pr with balance := pr.balance + pot.total }) ∧
    (pot.total = 0 →
      findProfile (delete_pot (some uid) potId db).2 uid = some pr) ∧
    findPotById (delete_pot (some uid) potId db).2 potId = none ∧
    userFunds (delete_pot (some uid) potId db).2 uid = userFunds db uid := by
  have hpotid : (pot.id == potId) = true := by
    have := List.find?_some hpot
    simp only [Bool.and_eq_true] at this
    exact this.1
  have hpr0 : db.profiles.find? (fun q => q.id == uid) = some pr := hpr
  have hprid : (pr.id == uid) = true := by
    simpa using List.find?_some hpr0
  have hmem : pot ∈ db.pots := List.mem_of_find?_eq_some hpot
  have hpotuid : (pot.user_id == uid) = true := by
    have := List.find?_some hpot
    simp only [Bool.and_eq_true] at this
    exact this.2
  have hdb' : (delete_pot (some uid) potId db).2 =
      { db with
        profiles :=
          if 0 < pot.total then
            db.profiles.map fun q =>
              if q.id == uid then { q with balance := q.balance + pot.total }
              else q
          else db.profiles
        pots := db.pots.filter fun p => !(p.id == potId) } := by
    simp [delete_pot, hpot]
  have hgPr : ∀ q : Profile,
      ((if q.id == uid then { q with balance := q.balance + pot.total } else q).id
        == uid) = (q.id == uid) := by
    intro q; by_cases h : (q.id == uid) = true <;> simp [h]
  have hNone : findPotById (delete_pot (some uid) potId db).2 potId = none := by
    rw [hdb']
    apply List.find?_eq_none.mpr
    intro p hp
    have := (List.mem_filter.mp hp).2
    simp only [Bool.not_eq_eq_eq_not, Bool.not_true] at this
    simp [this]
  have hPotSum : potTotalSum uid ((delete_pot (some uid) potId db).2).pots =
      potTotalSum uid db.pots - pot.total := by
    rw [hdb']
    have := potTotalSum_filter_ne hnd hmem uid
    rw [show (fun p : Pot => !(p.id == pot.id)) =
        (fun p : Pot => !(p.id == potId)) from funext fun p => by
          rw [beq_iff_eq.mp hpotid]] at this
    rw [this, hpotuid]
    simp
  refine ⟨by simp [delete_pot, hpot], ?_, ?_, hNone, ?_⟩
  · intro hlt
    rw [hdb']
    simp only [if_pos hlt]
    show (db.profiles.map fun q =>
        if q.id == uid then { q with balance := q.balance + pot.total } else q).find?
          (fun q => q.id == uid) = _
    rw [find?_map_preserve _ _ _ hgPr, hpr0]
    simp [beq_iff_eq.mp hprid]
  · intro hz
    rw [hdb']
    simp only [hz, lt_self_iff_false, if_false]
    exact hpr
  · rcases lt_or_eq_of_le htot with hlt | hz
    · have hPr : findProfile (delete_pot (some uid) potId db).2 uid =
          some { pr with balance := pr.balance + pot.total } := by
        rw [hdb']
        simp only [if_pos hlt]
        show (db.profiles.map fun q =>
            if q.id == uid then { q with balance := q.balance + pot.total }
            else q).find? (fun q => q.id == uid) = _
        rw [find?_map_preserve _ _ _ hgPr, hpr0]
        simp [beq_iff_eq.mp hprid]
      unfold userFunds
      rw [hPr, hpr, hPotSum]
      simp only [Option.map_some', Option.getD_some]
      omega
    · have hPr : findProfile (delete_pot (some uid) potId db).2 uid = some pr := by
        rw [hdb']
        simp only [← hz, lt_self_iff_false, if_false]
        exact hpr
      unfold userFunds
      rw [hPr, hpr, hPotSum]
      simp only [Option.map_some', Option.getD_some]
      omega

/-- Witness for C6: deleting a pot with total 120 credits exactly 120 back;
deleting a pot with total 0 leaves the balance unchanged. -/
theorem delete_pot_returns_funds_witness :
    (findProfile (delete_pot (some 1) 7
        ⟨[⟨1, 100⟩], [⟨7, 1, "Vacation", 200, 120⟩], []⟩).2 1 = some ⟨1, 220⟩ ∧
      findPotById (delete_pot (some 1) 7
        ⟨[⟨1, 100⟩], [⟨7, 1, "Vacation", 200, 120⟩], []⟩).2 7 = none ∧
      userFunds (delete_pot (some 1) 7
          ⟨[⟨1, 100⟩], [⟨7, 1, "Vacation", 200, 120⟩], []⟩).2 1 =
        userFunds ⟨[⟨1, 100⟩], [⟨7, 1, "Vacation", 200, 120⟩], []⟩ 1) ∧
    (findProfile (delete_pot (some 1) 7
        ⟨[⟨1, 100⟩], [⟨7, 1, "Empty", 200, 0⟩], []⟩).2 1 = some ⟨1, 100⟩ ∧
      findPotById (delete_pot (some 1) 7
        ⟨[⟨1, 100⟩], [⟨7, 1, "Empty", 200, 0⟩], []⟩).2 7 = none) := by
  constructor
  · have h := delete_pot_returns_funds 1 7
      ⟨[⟨1, 100⟩], [⟨7, 1, "Vacation", 200, 120⟩], []⟩
      ⟨7, 1, "Vacation", 200, 120⟩ ⟨1, 100⟩ (by decide) rfl rfl (by decide)
    exact ⟨h.2.1 (by decide), h.2.2.2.1, h.2.2.2.2⟩
  · have h := delete_pot_returns_funds 1 7
      ⟨[⟨1, 100⟩], [⟨7, 1, "Empty", 200, 0⟩], []⟩
      ⟨7, 1, "Empty", 200, 0⟩ ⟨1, 100⟩ (by decide) rfl rfl (by decide)
    exact ⟨h.2.2.1 rfl, h.2.2.2.1⟩

/-! ### Lemmas for the Balance Accrual Engine -/

theorem profilesAdd_zero (ps : List Profile) : profilesAdd (fun _ => 0) ps = ps := by
  unfold profilesAdd
  have : (fun pr : Profile => { pr with balance := pr.balance + 0 }) = id := by
    funext pr; simp
  rw [this, List.map_id]

theorem profilesAdd_comp (f g : Nat → ℤ) (ps : List Profile) :
    profilesAdd f (profilesAdd g ps) = profilesAdd (fun v => g v + f v) ps := by
  unfold profilesAdd
  rw [List.map_map]
  congr 1
  funext pr
  simp [Function.comp, add_assoc]

theorem bumpBalance_eq (uid : Nat) (a : ℤ) (ps : List Profile) :
    bumpBalance uid a ps = profilesAdd (fun v => if uid = v then a else 0) ps := by
  unfold bumpBalance profilesAdd
  congr 1
  funext pr
  by_cases h : pr.id = uid
  · subst h
    simp
  · have h' : ¬ uid = pr.id := fun e => h e.symm
    simp [h, h']

theorem mem_profilesAdd {f : Nat → ℤ} {ps : List Profile} {pr' : Profile} :
    pr' ∈ profilesAdd f ps ↔
      ∃ pr ∈ ps, pr' = { pr with balance := pr.balance + f pr.id } := by
  unfold profilesAdd
  rw [List.mem_map]
  constructor
  · rintro ⟨pr, hpr, rfl⟩; exact ⟨pr, hpr, rfl⟩
  · rintro ⟨pr, hpr, rfl⟩; exact ⟨pr, hpr, rfl⟩

theorem foldl_profilesAdd {β : Type} (δ : β → Nat → ℤ)
    (step : List Profile → β → List Profile)
    (hstep : ∀ ps t, step ps t = profilesAdd (δ t) ps) :
    ∀ (l : List β) (ps : List Profile),
      l.foldl step ps =
        profilesAdd (fun v => (l.map (fun t => δ t v)).sum) ps := by
  intro l
  induction l with
  | nil =>
    intro ps
    simp only [List.foldl_nil, List.map_nil, List.sum_nil]
    exact (profilesAdd_zero ps).symm
  | cons t ts ih =>
    intro ps
    rw [List.foldl_cons, hstep, ih, profilesAdd_comp]
    congr 1

theorem inPeriodSum_nil (now : Date) (v : Nat) : inPeriodSum now v [] = 0 := rfl

theorem inPeriodSum_cons (now : Date) (v : Nat) (t : Transaction)
    (ts : List Transaction) :
    inPeriodSum now v (t :: ts) =
      (if t.user_id == v && inPeriod now t.date then t.amount else 0) +
        inPeriodSum now v ts := by
  unfold inPeriodSum
  rw [List.filter_cons]
  by_cases h : (t.user_id == v && inPeriod now t.date) = true <;> simp [h]

theorem inPeriodSum_append (now : Date) (v : Nat) (l1 l2 : List Transaction) :
    inPeriodSum now v (l1 ++ l2) =
      inPeriodSum now v l1 + inPeriodSum now v l2 := by
  unfold inPeriodSum
  rw [List.filter_append, List.map_append, List.sum_append]

theorem inPeriodSum_singleton (now : Date) (v : Nat) (t : Transaction) :
    inPeriodSum now v [t] =
      if t.user_id == v && inPeriod now t.date then t.amount else 0 := by
  rw [inPeriodSum_cons, inPeriodSum_nil, add_zero]

theorem updTrigger_eq (now : Date) (t nt : Transaction) (ps : List Profile) :
    updTrigger now t nt ps =
      profilesAdd (fun v =>
        (if inPeriod now t.date then (if t.user_id = v then -t.amount else 0)
         else 0) +
        (if inPeriod now nt.date then (if nt.user_id = v then nt.amount else 0)
         else 0)) ps := by
  unfold updTrigger
  by_cases h1 : inPeriod now t.date = true <;>
    by_cases h2 : inPeriod now nt.date = true <;>
    simp [h1, h2]
  · rw [bumpBalance_eq, bumpBalance_eq, profilesAdd_comp]
  · rw [bumpBalance_eq]
  · rw [bumpBalance_eq]
  · exact (profilesAdd_zero ps).symm

theorem update_sum_delta (now : Date) (txId : Nat) (p : TransactionPatch)
    (v : Nat) (l : List Transaction) :
    (l.map (fun t =>
      if t.id == txId then
        (if inPeriod now t.date then (if t.user_id = v then -t.amount else 0)
         else 0) +
        (if inPeriod now (applyPatch p t).date then
          (if (applyPatch p t).user_id = v then (applyPatch p t).amount else 0)
         else 0)
      else 0)).sum =
    inPeriodSum now v (l.map fun t => if t.id == txId then applyPatch p t else t) -
      inPeriodSum now v l := by
  induction l with
  | nil => simp [inPeriodSum_nil]
  | cons t ts ih =>
    rw [List.map_cons, List.sum_cons, List.map_cons, inPeriodSum_cons,
      inPeriodSum_cons, ih]
    by_cases h1 : (t.id == txId) = true
    · simp only [h1, if_true]
      by_cases h2 : inPeriod now t.date = true <;>
        by_cases h3 : inPeriod now (applyPatch p t).date = true <;>
        by_cases h4 : t.user_id = v <;>
        by_cases h5 : (applyPatch p t).user_id = v <;>
        simp [h1, h2, h3, h4, h5] <;>
        omega
    · simp only [h1, Bool.false_eq_true, if_false]
      omega

theorem delete_sum_delta (now : Date) (txId : Nat) (v : Nat)
    (l : List Transaction) :
    (l.map (fun t =>
      if t.id == txId && inPeriod now t.date then
        (if t.user_id = v then -t.amount else 0)
      else 0)).sum =
    inPeriodSum now v (l.filter fun t => !(t.id == txId)) -
      inPeriodSum now v l := by
  induction l with
  | nil => simp [inPeriodSum_nil]
  | cons t ts ih =>
    rw [List.map_cons, List.sum_cons, List.filter_cons, inPeriodSum_cons, ih]
    by_cases h1 : (t.id == txId) = true
    · simp only [h1, Bool.not_true, Bool.false_eq_true, if_false]
      by_cases h2 : inPeriod now t.date = true <;>
        by_cases h4 : t.user_id = v <;>
        simp [h1, h2, h4] <;>
        omega
    · simp only [h1, Bool.not_false, if_true, inPeriodSum_cons]
      simp only [h1, Bool.false_and, Bool.false_eq_true, if_false]
      omega

theorem tx_insert_preserves (now : Date) (tx : Transaction) (db : DB)
    (h : balanceInv now db) : balanceInv now (tx_insert now tx db) := by
  unfold tx_insert
  by_cases hdup : db.txs.any (fun t => t.id == tx.id) = true
  · simpa [hdup] using h
  · simp only [hdup, Bool.false_eq_true, if_false]
    intro pr' hpr'
    by_cases hip : inPeriod now tx.date = true
    · simp only [hip, if_true] at hpr'
      rw [bumpBalance_eq] at hpr'
      rcases mem_profilesAdd.mp hpr' with ⟨pr, hpr, rfl⟩
      show pr.balance + _ = inPeriodSum now pr.id (db.txs ++ [tx])
      rw [inPeriodSum_append, inPeriodSum_singleton, h pr hpr]
      by_cases h4 : tx.user_id = pr.id <;> simp [h4, hip]
    · simp only [hip, Bool.false_eq_true, if_false] at hpr'
      show pr'.balance = inPeriodSum now pr'.id (db.txs ++ [tx])
      rw [inPeriodSum_append, inPeriodSum_singleton, h pr' hpr']
      simp [hip]

theorem tx_update_preserves (now : Date) (txId : Nat) (p : TransactionPatch)
    (db : DB) (h : balanceInv now db) :
    balanceInv now (tx_update now txId p db) := by
  unfold tx_update
  intro pr' hpr'
  simp only at hpr' ⊢
  rw [foldl_profilesAdd
    (fun t v =>
      if t.id == txId then
        (if inPeriod now t.date then (if t.user_id = v then -t.amount else 0)
         else 0) +
        (if inPeriod now (applyPatch p t).date then
          (if (applyPatch p t).user_id = v then (applyPatch p t).amount else 0)
         else 0)
      else 0)
    _
    (by
      intro ps t
      by_cases h1 : (t.id == txId) = true
      · simp only [h1, if_true]
        rw [updTrigger_eq]
      · simp only [h1, Bool.false_eq_true, if_false]
        exact (profilesAdd_zero ps).symm)] at hpr'
  rcases mem_profilesAdd.mp hpr' with ⟨pr, hpr, rfl⟩
  show pr.balance + _ =
    inPeriodSum now pr.id (db.txs.map fun t =>
      if t.id == txId then applyPatch p t else t)
  rw [h pr hpr, update_sum_delta]
  omega

theorem tx_delete_preserves (now : Date) (txId : Nat) (db : DB)
    (h : balanceInv now db) : balanceInv now (tx_delete now txId db) := by
  unfold tx_delete
  intro pr' hpr'
  simp only at hpr' ⊢
  rw [foldl_profilesAdd
    (fun t v =>
      if t.id == txId && inPeriod now t.date then
        (if t.user_id = v then -t.amount else 0)
      else 0)
    _
    (by
      intro ps t
      by_cases h1 : (t.id == txId && inPeriod now t.date) = true
      · simp only [h1, if_true]
        rw [bumpBalance_eq]
      · simp only [h1, Bool.false_eq_true, if_false]
        exact (profilesAdd_zero ps).symm)] at hpr'
  rcases mem_profilesAdd.mp hpr' with ⟨pr, hpr, rfl⟩
  show pr.balance + _ =
    inPeriodSum now pr.id (db.txs.filter fun t => !(t.id == txId))
  rw [h pr hpr, delete_sum_delta]
  omega

theorem applyTxOp_preserves (now : Date) (op : TxOp) (db : DB)
    (h : balanceInv now db) : balanceInv now (applyTxOp now op db) := by
  cases op with
  | ins tx => exact tx_insert_preserves now tx db h
  | upd txId p => exact tx_update_preserves now txId p db h
  | del txId => exact tx_delete_preserves now txId db h

/-- C4: replaying any sequence of transaction inserts, updates and deletes
(with `now` fixed and no pot operations interleaved) keeps every account
balance equal to the direct recomputation — the sum of the amounts of the
transactions then existing whose date falls in the current statement
period. -/
theorem balance_accrual_replay (now : Date) (ops : List TxOp) (db : DB)
    (h : balanceInv now db) : balanceInv now (applyTxOps now ops db) := by
  induction ops generalizing db with
  | nil => exact h
  | cons op ops ih =>
    rw [applyTxOps, List.foldl_cons]
    exact ih (applyTxOp now op db) (applyTxOp_preserves now op db h)

/-- Witness for C4: a concrete replay of an insert, an out-of-period insert,
an update and a delete starting from a consistent store. -/
theorem balance_accrual_replay_witness :
    balanceInv ⟨2024, 5, 15⟩
      (applyTxOps ⟨2024, 5, 15⟩
        [.ins ⟨1, 1, "Salary", "General", ⟨2024, 5, 1⟩, 2000, false⟩,
         .ins ⟨2, 1, "OldRent", "Bills", ⟨2024, 4, 1⟩, -500, true⟩,
         .upd 1 { amount := some 2100 },
         .ins ⟨3, 1, "Groceries", "Groceries", ⟨2024, 5, 10⟩, -80, false⟩,
         .del 3]
        ⟨[⟨1, 0⟩], [], []⟩) :=
  balance_accrual_replay ⟨2024, 5, 15⟩
    [.ins ⟨1, 1, "Salary", "General", ⟨2024, 5, 1⟩, 2000, false⟩,
     .ins ⟨2, 1, "OldRent", "Bills", ⟨2024, 4, 1⟩, -500, true⟩,
     .upd 1 { amount := some 2100 },
     .ins ⟨3, 1, "Groceries", "Groceries", ⟨2024, 5, 10⟩, -80, false⟩,
     .del 3]
    ⟨[⟨1, 0⟩], [], []⟩ (by decide)

/-! ### Lemmas for the whole-system conservation invariant -/

theorem potTotalSum_nil (v : Nat) : potTotalSum v [] = 0 := rfl

theorem potTotalSum_append (v : Nat) (l1 l2 : List Pot) :
    potTotalSum v (l1 ++ l2) = potTotalSum v l1 + potTotalSum v l2 := by
  unfold potTotalSum
  rw [List.filter_append, List.map_append, List.sum_append]

theorem potTotalSum_map_touch {pots : List Pot} (hnd : (pots.map (·.id)).Nodup)
    {pot : Pot} (hmem : pot ∈ pots) (g : Pot → Pot)
    (hgid : ∀ p, (g p).user_id = p.user_id) (v : Nat) :
    potTotalSum v (pots.map fun p => if p.id == pot.id then g p else p) =
      potTotalSum v pots +
        (if pot.user_id == v then (g pot).total - pot.total else 0) := by
  induction pots with
  | nil => cases hmem
  | cons q t ih =>
    simp only [List.map_cons, List.nodup_cons] at hnd
    obtain ⟨hna, hnt⟩ := hnd
    rcases List.mem_cons.mp hmem with rfl | hmt
    · have ht : (t.map fun p => if p.id == pot.id then g p else p) = t := by
        rw [show (t.map fun p => if p.id == pot.id then g p else p) = t.map id from
          List.map_congr_left ?_, List.map_id]
        intro b hb
        have hne : b.id ≠ pot.id := fun e => hna (e ▸ List.mem_map_of_mem (·.id) hb)
        simp [hne]
      rw [List.map_cons]
      simp only [beq_self_eq_true, if_true, ht]
      rw [potTotalSum_cons, potTotalSum_cons]
      rw [hgid pot]
      by_cases hv : (pot.user_id == v) = true <;> simp [hv] <;> omega
    · have hne : q.id ≠ pot.id := fun e => hna (e ▸ List.mem_map_of_mem (·.id) hmt)
      rw [List.map_cons]
      simp only [beq_eq_false_iff_ne.mpr hne, Bool.false_eq_true, if_false]
      rw [potTotalSum_cons, potTotalSum_cons, ih hnt hmt]
      ring

theorem profiles_sub_eq (uid : Nat) (a : ℤ) (ps : List Profile) :
    (ps.map fun q => if q.id == uid then { q with balance := q.balance - a } else q) =
      profilesAdd (fun v => if uid = v then -a else 0) ps := by
  unfold profilesAdd
  congr 1
  funext pr
  by_cases h : pr.id = uid
  · subst h
    simp [sub_eq_add_neg]
  · have h' : ¬ uid = pr.id := fun e => h e.symm
    simp [h, h']

/-- Normal form of any transaction CRUD step: the profile table gets
`profilesAdd F` where `F` is exactly the change of the in-period sum, and the
pot table is untouched. -/
theorem applyTxOp_normal (now : Date) (op : TxOp) (db : DB) :
    ∃ F : Nat → ℤ,
      (applyTxOp now op db).profiles = profilesAdd F db.profiles ∧
      (∀ v, F v = inPeriodSum now v (applyTxOp now op db).txs -
        inPeriodSum now v db.txs) ∧
      (applyTxOp now op db).pots = db.pots := by
  cases op with
  | ins tx =>
    by_cases hdup : db.txs.any (fun t => t.id == tx.id) = true
    · have hdb : applyTxOp now (.ins tx) db = db := by
        simp [applyTxOp, tx_insert, hdup]
      rw [hdb]
      exact ⟨fun _ => 0, (profilesAdd_zero _).symm, fun v => by simp, rfl⟩
    · by_cases hip : inPeriod now tx.date = true
      · have hdb : applyTxOp now (.ins tx) db =
            ⟨bumpBalance tx.user_id tx.amount db.profiles, db.pots,
              db.txs ++ [tx]⟩ := by
          simp [applyTxOp, tx_insert, hdup, hip]
        rw [hdb]
        refine ⟨fun v => if tx.user_id = v then tx.amount else 0, ?_, ?_, rfl⟩
        · exact bumpBalance_eq _ _ _
        · intro v
          show (if tx.user_id = v then tx.amount else 0) =
            inPeriodSum now v (db.txs ++ [tx]) - inPeriodSum now v db.txs
          rw [inPeriodSum_append, inPeriodSum_singleton]
          by_cases h4 : tx.user_id = v <;> simp [h4, hip] <;> omega
      · have hdb : applyTxOp now (.ins tx) db =
            ⟨db.profiles, db.pots, db.txs ++ [tx]⟩ := by
          simp [applyTxOp, tx_insert, hdup, hip]
        rw [hdb]
        refine ⟨fun _ => 0, (profilesAdd_zero _).symm, ?_, rfl⟩
        intro v
        show (0:ℤ) =
          inPeriodSum now v (db.txs ++ [tx]) - inPeriodSum now v db.txs
        rw [inPeriodSum_append, inPeriodSum_singleton]
        simp [hip]
  | upd txId p =>
    refine ⟨fun v =>
      (db.txs.map (fun t =>
        if t.id == txId then
          (if inPeriod now t.date then (if t.user_id = v then -t.amount else 0)
           else 0) +
          (if inPeriod now (applyPatch p t).date then
            (if (applyPatch p t).user_id = v then (applyPatch p t).amount else 0)
           else 0)
        else 0)).sum, ?_, fun v => update_sum_delta now txId p v db.txs, rfl⟩
    show db.txs.foldl
      (fun ps t => if t.id == txId then updTrigger now t (applyPatch p t) ps
        else ps) db.profiles = _
    rw [foldl_profilesAdd
      (fun t v =>
        if t.id == txId then
          (if inPeriod now t.date then (if t.user_id = v then -t.amount else 0)
           else 0) +
          (if inPeriod now (applyPatch p t).date then
            (if (applyPatch p t).user_id = v then (applyPatch p t).amount
             else 0)
           else 0)
        else 0)
      _
      (by
        intro ps t
        by_cases h1 : (t.id == txId) = true
        · simp only [h1, if_true]
          rw [updTrigger_eq]
        · simp only [h1, Bool.false_eq_true, if_false]
          exact (profilesAdd_zero ps).symm)]
  | del txId =>
    refine ⟨fun v =>
      (db.txs.map (fun t =>
        if t.id == txId && inPeriod now t.date then
          (if t.user_id = v then -t.amount else 0)
        else 0)).sum, ?_, fun v => delete_sum_delta now txId v db.txs, rfl⟩
    show db.txs.foldl
      (fun ps t => if t.id == txId && inPeriod now t.date then
        bumpBalance t.user_id (-t.amount) ps else ps) db.profiles = _
    rw [foldl_profilesAdd
      (fun t v =>
        if t.id == txId && inPeriod now t.date then
          (if t.user_id = v then -t.amount else 0)
        else 0)
      _
      (by
        intro ps t
        by_cases h1 : (t.id == txId && inPeriod now t.date) = true
        · simp only [h1, if_true]
          rw [bumpBalance_eq]
        · simp only [h1, Bool.false_eq_true, if_false]
          exact (profilesAdd_zero ps).symm)]

theorem pot_create_preserves (now : Date) (uid potId : Nat) (nm : String)
    (target : ℤ) (db : DB) (hnd : potIdsNodup db) (hnn : potsNonneg db)
    (h : conserveInv now db) :
    potIdsNodup (pot_create uid potId nm target db) ∧
    potsNonneg (pot_create uid potId nm target db) ∧
    conserveInv now (pot_create uid potId nm target db) := by
  unfold pot_create
  by_cases hdup : db.pots.any (fun p => p.id == potId) = true
  · simp only [hdup, if_true]
    exact ⟨hnd, hnn, h⟩
  · simp only [hdup, Bool.false_eq_true, if_false]
    refine ⟨?_, ?_, ?_⟩
    · unfold potIdsNodup at hnd ⊢
      rw [List.map_append, List.nodup_append]
      refine ⟨hnd, by simp, ?_⟩
      intro a ha hb
      rcases List.mem_map.mp ha with ⟨p, hp, hpa⟩
      simp only [List.map_cons, List.map_nil, List.mem_singleton] at hb
      apply absurd _ hdup
      rw [List.any_eq_true]
      exact ⟨p, hp, by simp [hpa, hb]⟩
    · intro p' hp'
      rcases List.mem_append.mp hp' with hp' | hp'
      · exact hnn p' hp'
      · rcases List.mem_singleton.mp hp' with rfl
        exact le_refl 0
    · intro pr hpr
      have hsum := h pr hpr
      show pr.balance +
        potTotalSum pr.id (db.pots ++ [⟨potId, uid, nm, target, 0⟩]) =
        inPeriodSum now pr.id db.txs
      rw [potTotalSum_append, potTotalSum_cons, potTotalSum_nil]
      by_cases hv : (uid == pr.id) = true <;> simp [hv] <;> omega

theorem pot_deposit_conserves (now : Date) (uid? : Option Nat) (potId : Nat)
    (amount : ℤ) (db : DB) (hnd : potIdsNodup db) (hnn : potsNonneg db)
    (h : conserveInv now db) :
    potIdsNodup (pot_deposit uid? potId amount db).2 ∧
    potsNonneg (pot_deposit uid? potId amount db).2 ∧
    conserveInv now (pot_deposit uid? potId amount db).2 := by
  cases uid? with
  | none => exact ⟨hnd, hnn, h⟩
  | some uid =>
    by_cases h1 : amount ≤ 0
    · have hs : (pot_deposit (some uid) potId amount db).2 = db := by
        simp [pot_deposit, h1]
      rw [hs]; exact ⟨hnd, hnn, h⟩
    · cases hfp : findPot db uid potId with
      | none =>
        have hs : (pot_deposit (some uid) potId amount db).2 = db := by
          simp [pot_deposit, h1, hfp]
        rw [hs]; exact ⟨hnd, hnn, h⟩
      | some pot =>
        cases hprf : findProfile db uid with
        | none =>
          have hs : (pot_deposit (some uid) potId amount db).2 = db := by
            simp [pot_deposit, h1, hfp, hprf]
          rw [hs]; exact ⟨hnd, hnn, h⟩
        | some pr =>
          by_cases h2 : pr.balance < amount
          · have hs : (pot_deposit (some uid) potId amount db).2 = db := by
              simp [pot_deposit, h1, hfp, hprf, h2]
            rw [hs]; exact ⟨hnd, hnn, h⟩
          · have hdb' : (pot_deposit (some uid) potId amount db).2 =
                ⟨db.profiles.map fun q =>
                    if q.id == uid then { q with balance := q.balance - amount }
                    else q,
                  db.pots.map fun p =>
                    if p.id == potId then { p with total := p.total + amount }
                    else p,
                  db.txs⟩ := by
              simp [pot_deposit, h1, hfp, hprf, h2]
            have hfind := List.find?_some hfp
            simp only [Bool.and_eq_true, beq_iff_eq] at hfind
            have hpotid : pot.id = potId := hfind.1
            have hpotuid : pot.user_id = uid := hfind.2
            have hmem : pot ∈ db.pots := List.mem_of_find?_eq_some hfp
            rw [hdb']
            refine ⟨?_, ?_, ?_⟩
            · unfold potIdsNodup at hnd ⊢
              rw [List.map_map, show ((·.id) ∘ (fun p : Pot =>
                  if p.id == potId then { p with total := p.total + amount }
                  else p)) = (·.id) from funext fun p => by
                    by_cases hc : p.id = potId <;> simp [hc]]
              exact hnd
            · intro p' hp'
              rcases List.mem_map.mp hp' with ⟨p, hp, rfl⟩
              by_cases hc : (p.id == potId) = true
              · simp only [hc, if_true]
                show 0 ≤ p.total + amount
                have := hnn p hp
                omega
              · simp only [hc, Bool.false_eq_true, if_false]
                exact hnn p hp
            · intro pr' hpr'
              rw [show (⟨db.profiles.map fun q =>
                    if q.id == uid then { q with balance := q.balance - amount }
                    else q,
                  db.pots.map fun p =>
                    if p.id == potId then { p with total := p.total + amount }
                    else p,
                  db.txs⟩ : DB).profiles = db.profiles.map fun q =>
                    if q.id == uid then { q with balance := q.balance - amount }
                    else q from rfl, profiles_sub_eq] at hpr'
              rcases mem_profilesAdd.mp hpr' with ⟨q, hq, rfl⟩
              have hsum := h q hq
              have hmt := potTotalSum_map_touch hnd hmem
                (fun p => { p with total := p.total + amount })
                (fun p => rfl) q.id
              rw [show (fun p : Pot =>
                  if p.id == pot.id then { p with total := p.total + amount }
                  else p) = (fun p : Pot =>
                  if p.id == potId then { p with total := p.total + amount }
                  else p) from funext fun p => by rw [hpotid]] at hmt
              show q.balance + (if uid = q.id then -amount else 0) +
                potTotalSum q.id (db.pots.map fun p =>
                  if p.id == potId then { p with total := p.total + amount }
                  else p) = inPeriodSum now q.id db.txs
              rw [hmt, hpotuid]
              by_cases hv : uid = q.id <;> simp [hv] <;> omega

theorem pot_withdraw_conserves (now : Date) (uid? : Option Nat) (potId : Nat)
    (amount : ℤ) (db : DB) (hnd : potIdsNodup db) (hnn : potsNonneg db)
    (h : conserveInv now db) :
    potIdsNodup (pot_withdraw uid? potId amount db).2 ∧
    potsNonneg (pot_withdraw uid? potId amount db).2 ∧
    conserveInv now (pot_withdraw uid? potId amount db).2 := by
  cases uid? with
  | none => exact ⟨hnd, hnn, h⟩
  | some uid =>
    by_cases h1 : amount ≤ 0
    · have hs : (pot_withdraw (some uid) potId amount db).2 = db := by
        simp [pot_withdraw, h1]
      rw [hs]; exact ⟨hnd, hnn, h⟩
    · cases hfp : findPot db uid potId with
      | none =>
        have hs : (pot_withdraw (some uid) potId amount db).2 = db := by
          simp [pot_withdraw, h1, hfp]
        rw [hs]; exact ⟨hnd, hnn, h⟩
      | some pot =>
        by_cases h2 : pot.total < amount
        · have hs : (pot_withdraw (some uid) potId amount db).2 = db := by
            simp [pot_withdraw, h1, hfp, h2]
          rw [hs]; exact ⟨hnd, hnn, h⟩
        · have hdb' : (pot_withdraw (some uid) potId amount db).2 =
              ⟨db.profiles.map fun q =>
                  if q.id == uid then { q with balance := q.balance + amount }
                  else q,
                db.pots.map fun p =>
                  if p.id == potId then { p with total := p.total - amount }
                  else p,
                db.txs⟩ := by
            simp [pot_withdraw, h1, hfp, h2]
          have hfind := List.find?_some hfp
          simp only [Bool.and_eq_true, beq_iff_eq] at hfind
          have hpotid : pot.id = potId := hfind.1
          have hpotuid : pot.user_id = uid := hfind.2
          have hmem : pot ∈ db.pots := List.mem_of_find?_eq_some hfp
          rw [hdb']
          refine ⟨?_, ?_, ?_⟩
          · unfold potIdsNodup at hnd ⊢
            rw [List.map_map, show ((·.id) ∘ (fun p : Pot =>
                if p.id == potId then { p with total := p.total - amount }
                else p)) = (·.id) from funext fun p => by
                  by_cases hc : p.id = potId <;> simp [hc]]
            exact hnd
          · intro p' hp'
            rcases List.mem_map.mp hp' with ⟨p, hp, rfl⟩
            by_cases hc : (p.id == potId) = true
            · have hpp : p = pot := by
                apply List.inj_on_of_nodup_map hnd hp hmem
                rw [beq_iff_eq.mp hc, hpotid]
              simp only [hc, if_true]
              show 0 ≤ p.total - amount
              rw [hpp]
              omega
            · simp only [hc, Bool.false_eq_true, if_false]
              exact hnn p hp
          · intro pr' hpr'
            have hbe : (db.profiles.map fun q =>
                if q.id == uid then { q with balance := q.balance + amount }
                else q) = profilesAdd (fun v => if uid = v then amount else 0)
                  db.profiles := bumpBalance_eq uid amount db.profiles
            rw [show (⟨db.profiles.map fun q =>
                  if q.id == uid then { q with balance := q.balance + amount }
                  else q,
                db.pots.map fun p =>
                  if p.id == potId then { p with total := p.total - amount }
                  else p,
                db.txs⟩ : DB).profiles = db.profiles.map fun q =>
                  if q.id == uid then { q with balance := q.balance + amount }
                  else q from rfl, hbe] at hpr'
            rcases mem_profilesAdd.mp hpr' with ⟨q, hq, rfl⟩
            have hsum := h q hq
            have hmt := potTotalSum_map_touch hnd hmem
              (fun p => { p with total := p.total - amount })
              (fun p => rfl) q.id
            rw [show (fun p : Pot =>
                if p.id == pot.id then { p with total := p.total - amount }
                else p) = (fun p : Pot =>
                if p.id == potId then { p with total := p.total - amount }
                else p) from funext fun p => by rw [hpotid]] at hmt
            show q.balance + (if uid = q.id then amount else 0) +
              potTotalSum q.id (db.pots.map fun p =>
                if p.id == potId then { p with total := p.total - amount }
                else p) = inPeriodSum now q.id db.txs
            rw [hmt, hpotuid]
            by_cases hv : uid = q.id <;> simp [hv] <;> omega

theorem delete_pot_conserves (now : Date) (uid? : Option Nat) (potId : Nat)
    (db : DB) (hnd : potIdsNodup db) (hnn : potsNonneg db)
    (h : conserveInv now db) :
    potIdsNodup (delete_pot uid? potId db).2 ∧
    potsNonneg (delete_pot uid? potId db).2 ∧
    conserveInv now (delete_pot uid? potId db).2 := by
  cases uid? with
  | none => exact ⟨hnd, hnn, h⟩
  | some uid =>
    cases hfp : findPot db uid potId with
    | none =>
      have hs : (delete_pot (some uid) potId db).2 = db := by
        simp [delete_pot, hfp]
      rw [hs]; exact ⟨hnd, hnn, h⟩
    | some pot =>
      have hfind := List.find?_some hfp
      simp only [Bool.and_eq_true, beq_iff_eq] at hfind
      have hpotid : pot.id = potId := hfind.1
      have hpotuid : pot.user_id = uid := hfind.2
      have hmem : pot ∈ db.pots := List.mem_of_find?_eq_some hfp
      have hdb' : (delete_pot (some uid) potId db).2 =
          ⟨if 0 < pot.total then
              db.profiles.map fun q =>
                if q.id == uid then { q with balance := q.balance + pot.total }
                else q
            else db.profiles,
            db.pots.filter fun p => !(p.id == potId),
            db.txs⟩ := by
        simp [delete_pot, hfp]
      rw [hdb']
      have hflt := potTotalSum_filter_ne hnd hmem
      have hflt' : ∀ v, potTotalSum v (db.pots.filter fun p => !(p.id == potId)) =
          potTotalSum v db.pots -
            (if pot.user_id == v then pot.total else 0) := by
        intro v
        have := hflt v
        rw [show (fun p : Pot => !(p.id == pot.id)) =
            (fun p : Pot => !(p.id == potId)) from funext fun p => by
              rw [hpotid]] at this
        exact this
      refine ⟨?_, ?_, ?_⟩
      · unfold potIdsNodup at hnd ⊢
        exact List.Nodup.sublist (List.Sublist.map _ (List.filter_sublist _)) hnd
      · intro p' hp'
        exact hnn p' (List.mem_of_mem_filter hp')
      · by_cases ht : 0 < pot.total
        · simp only [ht, if_true]
          intro pr' hpr'
          have hbe : (db.profiles.map fun q =>
              if q.id == uid then { q with balance := q.balance + pot.total }
              else q) = profilesAdd (fun v => if uid = v then pot.total else 0)
                db.profiles := bumpBalance_eq uid pot.total db.profiles
          rw [hbe] at hpr'
          have hpr'' : pr' ∈ profilesAdd (fun v => if uid = v then pot.total else 0)
              db.profiles := hpr'
          rcases mem_profilesAdd.mp hpr'' with ⟨q, hq, rfl⟩
          have hsum := h q hq
          show q.balance + (if uid = q.id then pot.total else 0) +
            potTotalSum q.id (db.pots.filter fun p => !(p.id == potId)) =
            inPeriodSum now q.id db.txs
          rw [hflt' q.id, hpotuid]
          by_cases hv : uid = q.id <;> simp [hv] <;> omega
        · have h0 : pot.total = 0 := le_antisymm (not_lt.mp ht) (hnn pot hmem)
          simp only [ht, if_false]
          intro pr' hpr'
          have hsum := h pr' hpr'
          show pr'.balance +
            potTotalSum pr'.id (db.pots.filter fun p => !(p.id == potId)) =
            inPeriodSum now pr'.id db.txs
          rw [hflt' pr'.id, h0]
          simp
          omega

theorem applySysOp_conserves (now : Date) (op : SysOp) (db : DB)
    (hnd : potIdsNodup db) (hnn : potsNonneg db) (h : conserveInv now db) :
    potIdsNodup (applySysOp now op db) ∧
    potsNonneg (applySysOp now op db) ∧
    conserveInv now (applySysOp now op db) := by
  cases op with
  | tx top =>
    obtain ⟨F, hprof, hF, hpots⟩ := applyTxOp_normal now top db
    have hpots' : (applySysOp now (SysOp.tx top) db).pots = db.pots := hpots
    refine ⟨?_, ?_, ?_⟩
    · unfold potIdsNodup at hnd ⊢
      rw [hpots']
      exact hnd
    · intro p hp
      rw [hpots'] at hp
      exact hnn p hp
    · intro pr' hpr'
      have hprof' : (applySysOp now (SysOp.tx top) db).profiles =
          profilesAdd F db.profiles := hprof
      rw [hprof'] at hpr'
      rcases mem_profilesAdd.mp hpr' with ⟨q, hq, rfl⟩
      have hsum := h q hq
      have hFv := hF q.id
      show q.balance + F q.id +
        potTotalSum q.id (applySysOp now (SysOp.tx top) db).pots =
        inPeriodSum now q.id (applySysOp now (SysOp.tx top) db).txs
      rw [hpots']
      have hFv' : F q.id =
          inPeriodSum now q.id (applySysOp now (SysOp.tx top) db).txs -
            inPeriodSum now q.id db.txs := hFv
      omega
  | mkPot uid potId nm target =>
    exact pot_create_preserves now uid potId nm target db hnd hnn h
  | pot pop =>
    cases pop with
    | dep uid? potId amount =>
      exact pot_deposit_conserves now uid? potId amount db hnd hnn h
    | wd uid? potId amount =>
      exact pot_withdraw_conserves now uid? potId amount db hnd hnn h
    | del uid? potId =>
      exact delete_pot_conserves now uid? potId db hnd hnn h

/-- C5 (counterexample): `Account.balance = in-period transaction sum` is NOT
an invariant of all system operations: starting from a consistent store, an
in-period insert of 100 followed by creating a pot and depositing 40 into it
leaves balance 60 while the in-period sum is still 100. -/
theorem balance_only_invariant_counterexample :
    balanceInv ⟨2024, 5, 15⟩ ⟨[⟨1, 0⟩], [], []⟩ ∧
    potIdsNodup (⟨[⟨1, 0⟩], [], []⟩ : DB) ∧
    potsNonneg (⟨[⟨1, 0⟩], [], []⟩ : DB) ∧
    ¬ balanceInv ⟨2024, 5, 15⟩
      (applySysOps ⟨2024, 5, 15⟩
        [.tx (.ins ⟨1, 1, "Salary", "General", ⟨2024, 5, 1⟩, 100, false⟩),
         .mkPot 1 5 "Savings" 500,
         .pot (.dep (some 1) 5 40)]
        ⟨[⟨1, 0⟩], [], []⟩) := by
  refine ⟨by decide, by decide, by decide, by decide⟩

/-- C5 (amended): in every state reachable by any sequence of system
operations — transaction CRUD, pot creation, and pot deposit / withdraw /
delete — from a store with unique non-negative pots satisfying it, each
account's balance *plus the sum of the account's pot totals* equals the sum
of the transactions dated in the current statement period; pot primary-key
uniqueness and pot non-negativity are preserved along the way. -/
theorem system_conservation_replay (now : Date) (ops : List SysOp) (db : DB)
    (hnd : potIdsNodup db) (hnn : potsNonneg db) (h : conserveInv now db) :
    potIdsNodup (applySysOps now ops db) ∧
    potsNonneg (applySysOps now ops db) ∧
    conserveInv now (applySysOps now ops db) := by
  induction ops generalizing db with
  | nil => exact ⟨hnd, hnn, h⟩
  | cons op ops ih =>
    rw [applySysOps, List.foldl_cons]
    obtain ⟨hnd', hnn', h'⟩ := applySysOp_conserves now op db hnd hnn h
    exact ih (applySysOp now op db) hnd' hnn' h'

/-- Witness for the amended C5 at the concrete counterexample run: the
conservation form of the invariant does survive the same operation
sequence. -/
theorem system_conservation_replay_witness :
    potIdsNodup
      (applySysOps ⟨2024, 5, 15⟩
        [.tx (.ins ⟨1, 1, "Salary", "General", ⟨2024, 5, 1⟩, 100, false⟩),
         .mkPot 1 5 "Savings" 500,
         .pot (.dep (some 1) 5 40)]
        ⟨[⟨1, 0⟩], [], []⟩) ∧
    potsNonneg
      (applySysOps ⟨2024, 5, 15⟩
        [.tx (.ins ⟨1, 1, "Salary", "General", ⟨2024, 5, 1⟩, 100, false⟩),
         .mkPot 1 5 "Savings" 500,
         .pot (.dep (some 1) 5 40)]
        ⟨[⟨1, 0⟩], [], []⟩) ∧
    conserveInv ⟨2024, 5, 15⟩
      (applySysOps ⟨2024, 5, 15⟩
        [.tx (.ins ⟨1, 1, "Salary", "General", ⟨2024, 5, 1⟩, 100, false⟩),
         .mkPot 1 5 "Savings" 500,
         .pot (.dep (some 1) 5 40)]
        ⟨[⟨1, 0⟩], [], []⟩) :=
  system_conservation_replay ⟨2024, 5, 15⟩
    [.tx (.ins ⟨1, 1, "Salary", "General", ⟨2024, 5, 1⟩, 100, false⟩),
     .mkPot 1 5 "Savings" 500,
     .pot (.dep (some 1) 5 40)]
    ⟨[⟨1, 0⟩], [], []⟩ (by decide) (by decide) (by decide)

/-! ### Lemmas for the Recurring Bill Classifier -/

theorem billMapInsert_keys (m : List (String × Transaction)) (tx : Transaction) :
    (billMapInsert m tx).map (·.1) =
      if tx.name ∈ m.map (·.1) then m.map (·.1)
      else m.map (·.1) ++ [tx.name] := by
  induction m with
  | nil => simp [billMapInsert]
  | cons hd rest ih =>
    obtain ⟨n, t⟩ := hd
    by_cases hn : n = tx.name
    · subst hn
      by_cases hlt : Date.lt t.date tx.date <;> simp [billMapInsert, hlt]
    · by_cases hin : tx.name ∈ rest.map (·.1) <;>
        simp [billMapInsert, hn, Ne.symm hn, hin, ih]

theorem billMapInsert_nodup {m : List (String × Transaction)} {tx : Transaction}
    (hnd : (m.map (·.1)).Nodup) : ((billMapInsert m tx).map (·.1)).Nodup := by
  rw [billMapInsert_keys]
  by_cases hin : tx.name ∈ m.map (·.1)
  · simpa [hin] using hnd
  · rw [if_neg hin]
    refine List.nodup_append.mpr ⟨hnd, by simp, ?_⟩
    intro a ha hb
    rcases List.mem_singleton.mp hb with rfl
    exact hin ha

theorem billMapInsert_mem2 {m : List (String × Transaction)} {tx : Transaction}
    (hnd : (m.map (·.1)).Nodup) {e : String × Transaction}
    (he : e ∈ billMapInsert m tx) :
    (e ∈ m ∧ (e.1 = tx.name → ¬ Date.lt e.2.date tx.date)) ∨
      e = (tx.name, tx) := by
  induction m with
  | nil =>
    right
    simpa [billMapInsert] using he
  | cons hd rest ih =>
    obtain ⟨n, t⟩ := hd
    simp only [List.map_cons, List.nodup_cons] at hnd
    obtain ⟨hna, hnr⟩ := hnd
    by_cases hn : n = tx.name
    · subst hn
      by_cases hlt : Date.lt t.date tx.date
      · unfold billMapInsert at he
        rw [if_pos rfl, if_pos hlt] at he
        rcases List.mem_cons.mp he with rfl | hrest
        · right; rfl
        · left
          refine ⟨List.mem_cons_of_mem _ hrest, ?_⟩
          intro hkey
          exact absurd (hkey ▸ List.mem_map_of_mem (·.1) hrest) hna
      · unfold billMapInsert at he
        rw [if_pos rfl, if_neg hlt] at he
        rcases List.mem_cons.mp he with rfl | hrest
        · exact Or.inl ⟨List.mem_cons_self _ _, fun _ => hlt⟩
        · left
          refine ⟨List.mem_cons_of_mem _ hrest, ?_⟩
          intro hkey
          exact absurd (hkey ▸ List.mem_map_of_mem (·.1) hrest) hna
    · unfold billMapInsert at he
      rw [if_neg hn] at he
      rcases List.mem_cons.mp he with rfl | hrest
      · exact Or.inl ⟨List.mem_cons_self _ _, fun hkey => absurd hkey hn⟩
      · rcases ih hnr hrest with ⟨hm, himp⟩ | heq
        · exact Or.inl ⟨List.mem_cons_of_mem _ hm, himp⟩
        · exact Or.inr heq

theorem billMapInsert_entry_le {m : List (String × Transaction)}
    {tx : Transaction} (hnd : (m.map (·.1)).Nodup) :
    ∀ e₀ ∈ m, e₀.1 = tx.name → ∀ e ∈ billMapInsert m tx, e.1 = tx.name →
      Date.le e₀.2.date e.2.date := by
  induction m with
  | nil => intro e₀ h; cases h
  | cons hd rest ih =>
    obtain ⟨n, t⟩ := hd
    simp only [List.map_cons, List.nodup_cons] at hnd
    obtain ⟨hna, hnr⟩ := hnd
    intro e₀ he₀ hk₀ e he hk
    by_cases hn : n = tx.name
    · subst hn
      rcases List.mem_cons.mp he₀ with rfl | hr₀
      · by_cases hlt : Date.lt t.date tx.date
        · unfold billMapInsert at he
          rw [if_pos rfl, if_pos hlt] at he
          rcases List.mem_cons.mp he with rfl | hre
          · exact Date.le_of_lt hlt
          · exact absurd (hk ▸ List.mem_map_of_mem (·.1) hre) hna
        · unfold billMapInsert at he
          rw [if_pos rfl, if_neg hlt] at he
          rcases List.mem_cons.mp he with rfl | hre
          · exact Date.le_refl _
          · exact absurd (hk ▸ List.mem_map_of_mem (·.1) hre) hna
      · exact absurd (hk₀ ▸ List.mem_map_of_mem (·.1) hr₀) hna
    · unfold billMapInsert at he
      rw [if_neg hn] at he
      rcases List.mem_cons.mp he₀ with rfl | hr₀
      · exact absurd hk₀ hn
      · rcases List.mem_cons.mp he with rfl | hre
        · exact absurd hk hn
        · exact ih hnr e₀ hr₀ hk₀ e hre hk

theorem billMapInsert_key_mem (m : List (String × Transaction))
    (tx : Transaction) : ∃ e ∈ billMapInsert m tx, e.1 = tx.name := by
  induction m with
  | nil =>
    refine ⟨(tx.name, tx), ?_, rfl⟩
    simp [billMapInsert]
  | cons hd rest ih =>
    obtain ⟨n, t⟩ := hd
    by_cases hn : n = tx.name
    · subst hn
      by_cases hlt : Date.lt t.date tx.date
      · refine ⟨(tx.name, tx), ?_, rfl⟩
        unfold billMapInsert
        rw [if_pos rfl, if_pos hlt]
        exact List.mem_cons_self _ _
      · refine ⟨(tx.name, t), ?_, rfl⟩
        unfold billMapInsert
        rw [if_pos rfl, if_neg hlt]
        exact List.mem_cons_self _ _
    · obtain ⟨e, he, hk⟩ := ih
      refine ⟨e, ?_, hk⟩
      unfold billMapInsert
      rw [if_neg hn]
      exact List.mem_cons_of_mem _ he

theorem billMapInsert_key_preserved {m : List (String × Transaction)}
    {tx : Transaction} {e₀ : String × Transaction} (he₀ : e₀ ∈ m) :
    ∃ e ∈ billMapInsert m tx, e.1 = e₀.1 := by
  induction m with
  | nil => cases he₀
  | cons hd rest ih =>
    obtain ⟨n, t⟩ := hd
    by_cases hn : n = tx.name
    · subst hn
      by_cases hlt : Date.lt t.date tx.date
      · rcases List.mem_cons.mp he₀ with rfl | hr₀
        · refine ⟨(tx.name, tx), ?_, rfl⟩
          unfold billMapInsert
          rw [if_pos rfl, if_pos hlt]
          exact List.mem_cons_self _ _
        · refine ⟨e₀, ?_, rfl⟩
          unfold billMapInsert
          rw [if_pos rfl, if_pos hlt]
          exact List.mem_cons_of_mem _ hr₀
      · refine ⟨e₀, ?_, rfl⟩
        unfold billMapInsert
        rw [if_pos rfl, if_neg hlt]
        exact he₀
    · rcases List.mem_cons.mp he₀ with rfl | hr₀
      · refine ⟨(n, t), ?_, rfl⟩
        unfold billMapInsert
        rw [if_neg hn]
        exact List.mem_cons_self _ _
      · obtain ⟨e, he, hk⟩ := ih hr₀
        refine ⟨e, ?_, hk⟩
        unfold billMapInsert
        rw [if_neg hn]
        exact List.mem_cons_of_mem _ he

/-- Full specification of `billMap`: keys are the distinct vendor names, each
entry's stored transaction belongs to the input and carries the latest date
among the vendor's transactions, and every input transaction's vendor has an
entry. -/
theorem buildBillMap_spec (R : List Transaction) :
    ((buildBillMap R).map (·.1)).Nodup ∧
    (∀ e ∈ buildBillMap R, e.1 = e.2.name ∧ e.2 ∈ R ∧
      ∀ t ∈ R, t.name = e.1 → Date.le t.date e.2.date) ∧
    (∀ t ∈ R, ∃ e ∈ buildBillMap R, e.1 = t.name) := by
  induction R using List.reverseRecOn with
  | nil => exact ⟨by simp [buildBillMap], by simp [buildBillMap], by simp⟩
  | append_singleton R tx ih =>
    obtain ⟨hnd, hprops, hcov⟩ := ih
    have hfold : buildBillMap (R ++ [tx]) = billMapInsert (buildBillMap R) tx := by
      unfold buildBillMap
      rw [List.foldl_append]
      rfl
    rw [hfold]
    refine ⟨billMapInsert_nodup hnd, ?_, ?_⟩
    · intro e he
      rcases billMapInsert_mem2 hnd he with ⟨hm, himp⟩ | rfl
      · obtain ⟨hk, hmem, hmax⟩ := hprops e hm
        refine ⟨hk, List.mem_append.mpr (Or.inl hmem), ?_⟩
        intro t' ht' hname
        rcases List.mem_append.mp ht' with ht' | ht'
        · exact hmax t' ht' hname
        · rcases List.mem_singleton.mp ht' with rfl
          exact Date.le_of_not_lt (himp hname.symm)
      · refine ⟨rfl, List.mem_append.mpr (Or.inr (List.mem_singleton.mpr rfl)), ?_⟩
        intro t' ht' hname
        rcases List.mem_append.mp ht' with ht' | ht'
        · obtain ⟨e₀, he₀, hk₀⟩ := hcov t' ht'
          have h1 : Date.le t'.date e₀.2.date :=
            (hprops e₀ he₀).2.2 t' ht' hk₀.symm
          have h2 : Date.le e₀.2.date tx.date :=
            billMapInsert_entry_le hnd e₀ he₀ (by rw [hk₀]; exact hname)
              (tx.name, tx) he rfl
          exact Date.le_trans h1 h2
        · rcases List.mem_singleton.mp ht' with rfl
          exact Date.le_refl _
    · intro t' ht'
      rcases List.mem_append.mp ht' with ht' | ht'
      · obtain ⟨e₀, he₀, hk₀⟩ := hcov t' ht'
        obtain ⟨e, he, hk⟩ := billMapInsert_key_preserved he₀
        exact ⟨e, he, by rw [hk, hk₀]⟩
      · rcases List.mem_singleton.mp ht' with rfl
        obtain ⟨e, he, hk⟩ := billMapInsert_key_mem (buildBillMap R) t'
        exact ⟨e, he, hk⟩

/-- Status of a classified bill, in calendar terms: `paid` iff the
representative's date is in the current calendar month; `due-soon` iff not
paid and the due day is in the next five days; `upcoming` otherwise. -/
theorem classifyBill_status (now : Date) (tx : Transaction)
    (hv : dateValid tx.date) :
    ((classifyBill now tx).status = .paid ↔
      (tx.date.y = now.y ∧ tx.date.m = now.m)) ∧
    ((classifyBill now tx).status = .dueSoon ↔
      (¬(tx.date.y = now.y ∧ tx.date.m = now.m) ∧
        now.d < tx.date.d ∧ tx.date.d ≤ now.d + 5)) ∧
    ((classifyBill now tx).status = .upcoming ↔
      (¬(tx.date.y = now.y ∧ tx.date.m = now.m) ∧
        ¬(now.d < tx.date.d ∧ tx.date.d ≤ now.d + 5))) := by
  have hiff : inPeriod now tx.date = true ↔
      (tx.date.y = now.y ∧ tx.date.m = now.m) := inPeriod_iff_sameMonth hv
  unfold classifyBill
  by_cases hp : inPeriod now tx.date = true
  · have hsame := hiff.mp hp
    simp [hp, hsame]
  · have hnsame : ¬(tx.date.y = now.y ∧ tx.date.m = now.m) :=
      fun hs => hp (hiff.mpr hs)
    by_cases hd : now.d < tx.date.d ∧ tx.date.d ≤ now.d + 5
    · simp [hp, hd, hnsame]
    · simp [hp, hd, hnsame]

/-- C7: every bill returned by `getRecurringBills` represents a vendor of the
fetched page by that vendor's latest-dated recurring expense transaction,
`dueDay` is the day-of-month of that transaction, the status is `paid` iff
the representative's date is in the current calendar month, `due-soon` iff
not paid and the due day is within the next five days, and `upcoming`
otherwise; vendors are distinct, and (without a search filter) every vendor
with a recurring expense on the page gets a bill. -/
theorem recurring_bill_classification (now : Date) (params : BillParams)
    (txs : List Transaction) (hv : ∀ t ∈ txs, dateValid t.date) :
    (∀ b ∈ (getRecurringBills now params txs).1,
      b.tx ∈ (page500 txs).filter recurringExpense ∧
      (∀ t ∈ (page500 txs).filter recurringExpense,
        t.name = b.tx.name → Date.le t.date b.tx.date) ∧
      b.dueDay = b.tx.date.d ∧
      (b.status = .paid ↔ (b.tx.date.y = now.y ∧ b.tx.date.m = now.m)) ∧
      (b.status = .dueSoon ↔
        (¬(b.tx.date.y = now.y ∧ b.tx.date.m = now.m) ∧
          now.d < b.tx.date.d ∧ b.tx.date.d ≤ now.d + 5)) ∧
      (b.status = .upcoming ↔
        (¬(b.tx.date.y = now.y ∧ b.tx.date.m = now.m) ∧
          ¬(now.d < b.tx.date.d ∧ b.tx.date.d ≤ now.d + 5)))) ∧
    ((getRecurringBills now params txs).1.map (·.tx.name)).Nodup ∧
    (params.search = none →
      ∀ t ∈ (page500 txs).filter recurringExpense,
        ∃ b ∈ (getRecurringBills now params txs).1, b.tx.name = t.name) := by
  have hvp : ∀ t ∈ page500 txs, dateValid t.date := by
    intro t ht
    apply hv
    have hpage : page500 txs = ((txs.insertionSort (txLe .latest)).take 500) := rfl
    rw [hpage] at ht
    exact (List.mem_insertionSort _).mp ((List.take_sublist _ _).subset ht)
  obtain ⟨hnd, hprops, hcov⟩ :=
    buildBillMap_spec ((page500 txs).filter recurringExpense)
  have hB0names :
      ((((buildBillMap ((page500 txs).filter recurringExpense)).map
        (·.2)).map (classifyBill now)).map (·.tx.name)).Nodup := by
    rw [List.map_map, List.map_map]
    have heq : (buildBillMap ((page500 txs).filter recurringExpense)).map
        (((·.tx.name) ∘ classifyBill now) ∘ (·.2)) =
        (buildBillMap ((page500 txs).filter recurringExpense)).map (·.1) :=
      List.map_congr_left (fun e he => ((hprops e he).1).symm)
    rw [heq]
    exact hnd
  obtain ⟨psearch, psort⟩ := params
  refine ⟨?_, ?_, ?_⟩
  · intro b hb
    simp only [getRecurringBills, billsPipeline] at hb
    rw [List.mem_insertionSort] at hb
    have hb0 : b ∈ ((buildBillMap
        ((page500 txs).filter recurringExpense)).map (·.2)).map
          (classifyBill now) := by
      cases psearch with
      | none => exact hb
      | some s =>
        have hb1 : b ∈ if s = "" then
            ((buildBillMap ((page500 txs).filter recurringExpense)).map
              (·.2)).map (classifyBill now)
          else
            (((buildBillMap ((page500 txs).filter recurringExpense)).map
              (·.2)).map (classifyBill now)).filter
                (fun b => nameMatches b.tx.name s) := hb
        by_cases hes : s = ""
        · rwa [if_pos hes] at hb1
        · rw [if_neg hes] at hb1
          exact List.mem_of_mem_filter hb1
    rcases List.mem_map.mp hb0 with ⟨u, hu, rfl⟩
    rcases List.mem_map.mp hu with ⟨e, he, rfl⟩
    obtain ⟨hk, hmem, hmax⟩ := hprops e he
    have hvdate : dateValid e.2.date := hvp e.2 (List.mem_of_mem_filter hmem)
    obtain ⟨hps, hds, hus⟩ := classifyBill_status now e.2 hvdate
    refine ⟨hmem, ?_, rfl, hps, hds, hus⟩
    intro t ht hname
    refine hmax t ht ?_
    rw [hname]
    exact hk.symm
  · have hsubnodup : ∀ L : List RecurringBill,
        L.Sublist (((buildBillMap
          ((page500 txs).filter recurringExpense)).map (·.2)).map
            (classifyBill now)) →
        ((List.insertionSort
          (billLe ((BillParams.mk psearch psort).sort.getD .latest)) L).map
          (·.tx.name)).Nodup := by
      intro L hL
      have hperm : ((List.insertionSort
          (billLe ((BillParams.mk psearch psort).sort.getD .latest)) L).map
          (·.tx.name)).Perm (L.map (·.tx.name)) :=
        (List.perm_insertionSort _ L).map _
      rw [hperm.nodup_iff]
      exact List.Nodup.sublist (hL.map _) hB0names
    cases psearch with
    | none => exact hsubnodup _ (List.Sublist.refl _)
    | some s =>
      show ((List.insertionSort _ (if s = "" then
          ((buildBillMap ((page500 txs).filter recurringExpense)).map
            (·.2)).map (classifyBill now)
        else
          (((buildBillMap ((page500 txs).filter recurringExpense)).map
            (·.2)).map (classifyBill now)).filter
              (fun b => nameMatches b.tx.name s))).map (·.tx.name)).Nodup
      by_cases hes : s = ""
      · rw [if_pos hes]
        exact hsubnodup _ (List.Sublist.refl _)
      · rw [if_neg hes]
        exact hsubnodup _ (List.filter_sublist _)
  · intro hsearch t ht
    obtain ⟨e, he, hk⟩ := hcov t ht
    have hsn : psearch = none := hsearch
    subst hsn
    refine ⟨classifyBill now e.2, ?_, ?_⟩
    · simp only [getRecurringBills, billsPipeline]
      rw [List.mem_insertionSort]
      exact List.mem_map_of_mem _ (List.mem_map_of_mem _ he)
    · show e.2.name = t.name
      rw [← (hprops e he).1, hk]

/-- Witness for C7: three vendors, one paid this month, one due in three
days, one whose day has passed. -/
theorem recurring_bill_classification_witness :
    (∀ b ∈ (getRecurringBills ⟨2024, 5, 15⟩ {}
        [⟨3, 1, "Netflix", "Bills", ⟨2024, 5, 2⟩, -15, true⟩,
         ⟨4, 1, "Spotify", "Bills", ⟨2024, 4, 18⟩, -10, true⟩,
         ⟨5, 1, "Gym", "Bills", ⟨2024, 4, 3⟩, -25, true⟩]).1,
      b.tx ∈ (page500
          [⟨3, 1, "Netflix", "Bills", ⟨2024, 5, 2⟩, -15, true⟩,
           ⟨4, 1, "Spotify", "Bills", ⟨2024, 4, 18⟩, -10, true⟩,
           ⟨5, 1, "Gym", "Bills", ⟨2024, 4, 3⟩, -25, true⟩]).filter
            recurringExpense ∧
      (∀ t ∈ (page500
          [⟨3, 1, "Netflix", "Bills", ⟨2024, 5, 2⟩, -15, true⟩,
           ⟨4, 1, "Spotify", "Bills", ⟨2024, 4, 18⟩, -10, true⟩,
           ⟨5, 1, "Gym", "Bills", ⟨2024, 4, 3⟩, -25, true⟩]).filter
            recurringExpense,
        t.name = b.tx.name → Date.le t.date b.tx.date) ∧
      b.dueDay = b.tx.date.d ∧
      (b.status = .paid ↔ (b.tx.date.y = 2024 ∧ b.tx.date.m = 5)) ∧
      (b.status = .dueSoon ↔
        (¬(b.tx.date.y = 2024 ∧ b.tx.date.m = 5) ∧
          15 < b.tx.date.d ∧ b.tx.date.d ≤ 15 + 5)) ∧
      (b.status = .upcoming ↔
        (¬(b.tx.date.y = 2024 ∧ b.tx.date.m = 5) ∧
          ¬(15 < b.tx.date.d ∧ b.tx.date.d ≤ 15 + 5)))) ∧
    ((getRecurringBills ⟨2024, 5, 15⟩ {}
        [⟨3, 1, "Netflix", "Bills", ⟨2024, 5, 2⟩, -15, true⟩,
         ⟨4, 1, "Spotify", "Bills", ⟨2024, 4, 18⟩, -10, true⟩,
         ⟨5, 1, "Gym", "Bills", ⟨2024, 4, 3⟩, -25, true⟩]).1.map
          (·.tx.name)).Nodup ∧
    (({} : BillParams).search = none →
      ∀ t ∈ (page500
          [⟨3, 1, "Netflix", "Bills", ⟨2024, 5, 2⟩, -15, true⟩,
           ⟨4, 1, "Spotify", "Bills", ⟨2024, 4, 18⟩, -10, true⟩,
           ⟨5, 1, "Gym", "Bills", ⟨2024, 4, 3⟩, -25, true⟩]).filter
            recurringExpense,
        ∃ b ∈ (getRecurringBills ⟨2024, 5, 15⟩ {}
          [⟨3, 1, "Netflix", "Bills", ⟨2024, 5, 2⟩, -15, true⟩,
           ⟨4, 1, "Spotify", "Bills", ⟨2024, 4, 18⟩, -10, true⟩,
           ⟨5, 1, "Gym", "Bills", ⟨2024, 4, 3⟩, -25, true⟩]).1,
          b.tx.name = t.name) :=
  recurring_bill_classification ⟨2024, 5, 15⟩ {}
    [⟨3, 1, "Netflix", "Bills", ⟨2024, 5, 2⟩, -15, true⟩,
     ⟨4, 1, "Spotify", "Bills", ⟨2024, 4, 18⟩, -10, true⟩,
     ⟨5, 1, "Gym", "Bills", ⟨2024, 4, 3⟩, -25, true⟩] (by decide)

/-- C8 (counterexample): the transaction listing sorted by `Highest` is NOT
ordered by `abs(amount)` descending — `SORT_MAP` orders by the signed
`amount` column, so an income of 5 sorts before an expense of −10. -/
theorem transactions_highest_abs_counterexample :
    ¬ ((getTransactions { sort := .highest }
        [⟨1, 1, "A", "Bills", ⟨2024, 5, 10⟩, 5, false⟩,
         ⟨2, 1, "B", "Bills", ⟨2024, 5, 9⟩, -10, false⟩]).transactions.Pairwise
        (fun a b => |b.amount| ≤ |a.amount|)) := by decide

/-- C8 (amended): the recurring-bill listing sorted by `Highest` is ordered
by `abs(amount)` descending, while the transaction listing sorted by
`Highest` is ordered by the signed `amount` descending (large-magnitude
expenses sort last, not first). -/
theorem highest_sort_order (page limit : Nat) (search category : Option String)
    (txs : List Transaction) (now : Date) (bsearch : Option String) :
    ((getTransactions ⟨page, limit, search, .highest, category⟩
        txs).transactions.Pairwise (fun a b => b.amount ≤ a.amount)) ∧
    ((getRecurringBills now ⟨bsearch, some .highest⟩ txs).1.Pairwise
      (fun a b => |b.tx.amount| ≤ |a.tx.amount|)) := by
  constructor
  · have hsorted : List.Sorted (txLe .highest)
        ((applyCategory category (applySearch search txs)).insertionSort
          (txLe .highest)) :=
      List.sorted_insertionSort _ _
    have hsub : ((((applyCategory category (applySearch search
        txs)).insertionSort (txLe .highest)).drop ((page - 1) * limit)).take
          limit).Sublist
        ((applyCategory category (applySearch search txs)).insertionSort
          (txLe .highest)) :=
      (List.take_sublist _ _).trans (List.drop_sublist _ _)
    exact List.Pairwise.sublist hsub hsorted
  · exact List.sorted_insertionSort (billLe .highest) _

theorem page500_idem (txs : List Transaction) :
    page500 (page500 txs) = page500 txs := by
  show ((page500 txs).insertionSort (txLe .latest)).take 500 = page500 txs
  have hs : List.Sorted (txLe .latest) (page500 txs) := by
    have hsorted := List.sorted_insertionSort (txLe .latest) txs
    exact List.Pairwise.sublist (List.take_sublist _ _) hsorted
  rw [hs.insertionSort_eq]
  show ((txs.insertionSort (txLe .latest)).take 500).take 500 = page500 txs
  rw [List.take_take, min_self]
  rfl

theorem bill_tx_mem_page (now : Date) (params : BillParams)
    (txs : List Transaction) :
    ∀ b ∈ (getRecurringBills now params txs).1, b.tx ∈ page500 txs := by
  obtain ⟨psearch, psort⟩ := params
  intro b hb
  simp only [getRecurringBills, billsPipeline] at hb
  rw [List.mem_insertionSort] at hb
  have hb0 : b ∈ ((buildBillMap
      ((page500 txs).filter recurringExpense)).map (·.2)).map
        (classifyBill now) := by
    cases psearch with
    | none => exact hb
    | some s =>
      have hb1 : b ∈ if s = "" then
          ((buildBillMap ((page500 txs).filter recurringExpense)).map
            (·.2)).map (classifyBill now)
        else
          (((buildBillMap ((page500 txs).filter recurringExpense)).map
            (·.2)).map (classifyBill now)).filter
              (fun b => nameMatches b.tx.name s) := hb
      by_cases hes : s = ""
      · rwa [if_pos hes] at hb1
      · rw [if_neg hes] at hb1
        exact List.mem_of_mem_filter hb1
  rcases List.mem_map.mp hb0 with ⟨u, hu, rfl⟩
  rcases List.mem_map.mp hu with ⟨e, he, rfl⟩
  obtain ⟨hnd, hprops, hcov⟩ :=
    buildBillMap_spec ((page500 txs).filter recurringExpense)
  exact List.mem_of_mem_filter (hprops e he).2.1

/-- C9: `getRecurringBills` computes its whole answer (bills and summary)
from the single 500-row first page of the date-descending transaction
listing, so any transaction outside that page — in particular any recurring
expense of an account with more than 500 transactions — can neither become a
bill's representative nor affect the summary. -/
theorem recurring_bills_window (now : Date) (params : BillParams)
    (txs : List Transaction) (tx : Transaction) (hout : tx ∉ page500 txs) :
    getRecurringBills now params txs =
      getRecurringBills now params (page500 txs) ∧
    (page500 txs).length ≤ 500 ∧
    ∀ b ∈ (getRecurringBills now params txs).1, b.tx ≠ tx := by
  refine ⟨?_, ?_, ?_⟩
  · show billsPipeline now params (page500 txs) =
      billsPipeline now params (page500 (page500 txs))
    rw [page500_idem]
  · show ((txs.insertionSort (txLe .latest)).take 500).length ≤ 500
    exact List.length_take_le _ _
  · intro b hb heq
    apply hout
    rw [← heq]
    exact bill_tx_mem_page now params txs b hb

/-- Witness for C9 at a concrete store with a transaction outside the
window. -/
theorem recurring_bills_window_witness :
    (getRecurringBills ⟨2024, 5, 15⟩ {}
        [⟨3, 1, "Netflix", "Bills", ⟨2024, 5, 2⟩, -15, true⟩] =
      getRecurringBills ⟨2024, 5, 15⟩ {}
        (page500 [⟨3, 1, "Netflix", "Bills", ⟨2024, 5, 2⟩, -15, true⟩])) ∧
    (page500 [⟨3, 1, "Netflix", "Bills", ⟨2024, 5, 2⟩, -15, true⟩]).length ≤
      500 ∧
    ∀ b ∈ (getRecurringBills ⟨2024, 5, 15⟩ {}
        [⟨3, 1, "Netflix", "Bills", ⟨2024, 5, 2⟩, -15, true⟩]).1,
      b.tx ≠ ⟨9, 1, "Oldvendor", "Bills", ⟨2019, 1, 7⟩, -30, true⟩ :=
  recurring_bills_window ⟨2024, 5, 15⟩ {}
    [⟨3, 1, "Netflix", "Bills", ⟨2024, 5, 2⟩, -15, true⟩]
    ⟨9, 1, "Oldvendor", "Bills", ⟨2019, 1, 7⟩, -30, true⟩ (by decide)

/-- C10: the summary of `getRecurringBills` is computed from the full
classified set, before the search filter and the sort, so any search string
and any sort option produce exactly the same summary as no search. -/
theorem summary_independent_of_search (now : Date) (s : String)
    (o o' : Option SortOption) (txs : List Transaction) :
    (getRecurringBills now ⟨some s, o⟩ txs).2 =
      (getRecurringBills now ⟨none, o'⟩ txs).2 := rfl

end Centinel
